import Mathlib

/-!
Verification development for the conversational survey orchestrator:
the report data model, the extraction-merge rules of
SurveySessionService.addClientMessage, the flattened view built by
SurveySessionService.getCurrentReportData, the next-question decision of
AiService DummyImpl.decideNextQuestion, the session-state operations, and
the /s/:externalId/respond route of the Survey plugin.

Modelling conventions:
- JavaScript runtime values occurring in report JSON and extraction results
  are modelled by JsVal.  The orchestrator only inspects nullness, string
  content, `typeof v === "object"` together with `Object.keys(v).length`,
  truthiness, and the String(v) rendering, so arrays are modelled by the
  renderings of their elements and objects by their list of keys.
- Entry ids are generated by `generateId()` (timestamp plus randomness);
  they are modelled as natural numbers drawn from a counter threaded through
  the operations, which captures the intent that every generated id is fresh.
- JSON serialisation between the services and the repositories is the
  identity on this typed model and is elided.
-/

namespace AiSurvey

/-- JavaScript runtime value, as far as the orchestrator inspects it. -/
inductive JsVal where
  | vnull : JsVal
  | vstr : String → JsVal
  | vnum : Int → JsVal
  | vbool : Bool → JsVal
  | varr : List String → JsVal
  | vobj : List String → JsVal
deriving DecidableEq, Repr

/-- Lower-casing of one character, covering the Latin and Cyrillic letters
that occur in the none-equivalent token set (JS String.toLowerCase). -/
def charLower (c : Char) : Char :=
  if c.toNat ≥ 65 && c.toNat ≤ 90 then Char.ofNat (c.toNat + 32)
  else if c.toNat ≥ 0x410 && c.toNat ≤ 0x42F then Char.ofNat (c.toNat + 32)
  else if c.toNat = 0x401 then Char.ofNat 0x451
  else c

/-- Lower-casing of a string (JS String.toLowerCase on the relevant alphabets). -/
def lowerStr (s : String) : String := String.mk (s.data.map charLower)

/-- Whether the first list is an initial segment of the second. -/
def leadEq : List Char → List Char → Bool
  | [], _ => true
  | _ :: _, [] => false
  | a :: as, b :: bs => a = b && leadEq as bs

/-- Whether sub occurs as a contiguous segment of the second list. -/
def hasSegment (sub : List Char) : List Char → Bool
  | [] => sub.isEmpty
  | a :: rest => leadEq sub (a :: rest) || hasSegment sub rest

/-- JS String.prototype.includes. -/
def strIncl (s sub : String) : Bool := hasSegment sub.data s.data

/-- JS String(v) rendering of a value. -/
def jsToString : JsVal → String
  | .vnull => "null"
  | .vstr s => s
  | .vnum n => toString n
  | .vbool b => if b then "true" else "false"
  | .varr es => String.intercalate "," es
  | .vobj _ => "[object Object]"

/-- JS test `typeof v === "object" && v != null && Object.keys(v).length === 0`:
an empty object or an empty array. -/
def isEmptyObjectLike : JsVal → Bool
  | .vobj [] => true
  | .varr [] => true
  | _ => false

/-- JS truthiness of a value. -/
def jsTruthy : JsVal → Bool
  | .vnull => false
  | .vstr s => !(s = "")
  | .vnum n => !(n = 0)
  | .vbool b => b
  | .varr _ => true
  | .vobj _ => true

/-- The isNoneValue helper of SurveySessionService.addClientMessage
(none, no, нет, plus the substrings "нет проблем" and "no problems"). -/
def isNoneValueMerge (v : JsVal) : Bool :=
  match v with
  | .vstr s =>
    let lower := lowerStr s
    lower = "none" || lower = "no" || lower = "нет" ||
      strIncl lower "нет проблем" || strIncl lower "no problems"
  | _ => false

/-- The isNoneValue helper of the respond route (Survey.ts lines 329-344),
which additionally recognises "нет препятствий" and "no obstacles". -/
def isNoneValueFull (v : JsVal) : Bool :=
  match v with
  | .vstr s =>
    let lower := lowerStr s
    lower = "none" || lower = "no" || lower = "нет" ||
      strIncl lower "нет проблем" || strIncl lower "no problems" ||
      strIncl lower "нет препятствий" || strIncl lower "no obstacles"
  | _ => false

/-- One record of the data ledger of a report. -/
structure DataEntry where
  id : Nat
  key : String
  value : JsVal
  type : String
deriving DecidableEq, Repr

/-- One record of the conversation ledger of a report. -/
structure ConversationEntry where
  id : Nat
  author : String
  text : String
  questionId : Option Nat
deriving DecidableEq, Repr

/-- A session report document: conversation ledger plus data ledger. -/
structure Report where
  conversation : List ConversationEntry
  data : List DataEntry
deriving DecidableEq, Repr

/-- First-match lookup in an association list (JS object property access,
given that the builders below never produce duplicate keys). -/
def assoc {κ α : Type} [DecidableEq κ] (k : κ) : List (κ × α) → Option α
  | [] => none
  | p :: ps => if p.1 = k then some p.2 else assoc k ps

/-- One step of the first pass of getCurrentReportData (lines 451-457):
entriesByKey receives the entry when no entry for the key exists yet, or when
the existing one is extracted and the new one is freeform. -/
def updEntry (acc : List (String × String × JsVal)) (e : DataEntry) :
    List (String × String × JsVal) :=
  match assoc e.key acc with
  | none => acc ++ [(e.key, e.type, e.value)]
  | some tv =>
    if tv.1 = "extracted" && e.type = "freeform" then
      acc.map (fun q => if q.1 = e.key then (e.key, e.type, e.value) else q)
    else acc

/-- The entriesByKey object after the first pass over the data array. -/
def entriesByKey (data : List DataEntry) : List (String × String × JsVal) :=
  data.foldl updEntry []

/-- The _flatData object built by getCurrentReportData (lines 447-462):
one value per key, freeform preferred over extracted, first entry otherwise. -/
def flattenPairs (data : List DataEntry) : List (String × JsVal) :=
  (entriesByKey data).map (fun p => (p.1, p.2.2))

/-- Value of the flattened view at one key. -/
def flattenLookup (data : List DataEntry) (k : String) : Option JsVal :=
  assoc k (flattenPairs data)

/-- First freeform entry for a key in a data array. -/
def firstFree (data : List DataEntry) (k : String) : Option DataEntry :=
  data.find? (fun e => e.key = k && e.type = "freeform")

/-- First entry for a key in a data array (JS Array.prototype.find). -/
def firstForKey (data : List DataEntry) (k : String) : Option DataEntry :=
  data.find? (fun e => decide (e.key = k))

/-- Reference description of the flatten selection, used to reason about the
fold of entriesByKey: the first entry for the key wins, except that a stored
extracted entry is later replaced by the first freeform entry for the key. -/
def pickSpec : List DataEntry → String → Option (String × JsVal)
  | [], _ => none
  | e :: rest, k =>
    if e.key = k then
      if e.type = "extracted" then
        match firstFree rest k with
        | some f => some (f.type, f.value)
        | none => some (e.type, e.value)
      else some (e.type, e.value)
    else pickSpec rest k

/-- Replace the element at one index of a list (JS `arr[i] = x` on data arrays). -/
def updAt {α : Type} (i : Nat) (f : α → α) : List α → List α
  | [] => []
  | x :: xs =>
    match i with
    | 0 => f x :: xs
    | n + 1 => x :: updAt n f xs

/-- Index of the first freeform entry for a key
(JS findIndex with `d.key === key && d.type === "freeform"`). -/
def findFreeIdx (k : String) : List DataEntry → Option Nat
  | [] => none
  | e :: es =>
    if e.key = k && e.type = "freeform" then some 0
    else (findFreeIdx k es).map (· + 1)

/-- Whether an extraction value is stored at all by the merge
(addClientMessage lines 703-704): not null (or a none-equivalent string, which
is a string and therefore not null anyway), and not an empty object. -/
def storableVal (v : JsVal) : Bool :=
  (decide (v ≠ JsVal.vnull) || isNoneValueMerge v) && !(isEmptyObjectLike v)

/-- One step of the loop of addClientMessage (lines 702-738) that stores one
extracted key/value pair into the data entries of the current turn: current
question key gives a freeform upsert, any other key appends an extracted
entry.  The Nat component is the fresh-id counter. -/
def storeStep (currentKey : String) (st : List DataEntry × Nat)
    (kv : String × JsVal) : List DataEntry × Nat :=
  if storableVal kv.2 then
    if kv.1 = currentKey then
      match findFreeIdx kv.1 st.1 with
      | some i =>
        (updAt i (fun d => { d with value := JsVal.vstr (jsToString kv.2) }) st.1, st.2)
      | none =>
        (st.1 ++ [⟨st.2, kv.1, JsVal.vstr (jsToString kv.2), "freeform"⟩], st.2 + 1)
    else
      (st.1 ++ [⟨st.2, kv.1, JsVal.vstr (jsToString kv.2), "extracted"⟩], st.2 + 1)
  else st

/-- The data entries produced by one turn of addClientMessage from the
extraction result (the data array of the partialReport), with the counter
value after id generation. -/
def buildTurnData (extracted : List (String × JsVal)) (currentKey : String)
    (c : Nat) : List DataEntry × Nat :=
  extracted.foldl (storeStep currentKey) ([], c)

/-- One step of the merge of a turn entry into the full report data
(addClientMessage lines 747-760): freeform replaces the first existing
freeform entry for the key in place or is appended; extracted is appended. -/
def mergeStep (full : List DataEntry) (p : DataEntry) : List DataEntry :=
  if p.type = "freeform" then
    match findFreeIdx p.key full with
    | some i => updAt i (fun _ => p) full
    | none => full ++ [p]
  else full ++ [p]

/-- Merge of the data entries of one turn into the full report data. -/
def mergeData (full turn : List DataEntry) : List DataEntry :=
  turn.foldl mergeStep full

/-- One full addClientMessage merge on a report: append the client
conversation entry, build the data entries of the turn from the extraction
result, and merge them into the data array.  The conversation entry id is
generated before the data entry ids, as in the source. -/
def mergeClientMessage (r : Report) (clientMessage : String)
    (extracted : List (String × JsVal)) (currentKey : String) (c : Nat) :
    Report × Nat :=
  let turn := buildTurnData extracted currentKey (c + 1)
  ({ conversation := r.conversation ++ [⟨c, "client", clientMessage, none⟩],
     data := mergeData r.data turn.1 }, turn.2)

/-- Input of one addClientMessage merge: the raw client message, the map
returned by the extraction collaborator, and the dataKey of the question the
turn was about. -/
structure MergeInput where
  clientMessage : String
  extracted : List (String × JsVal)
  currentKey : String
deriving DecidableEq, Repr

/-- One merge applied to a report and an id counter. -/
def applyMerge (st : Report × Nat) (inp : MergeInput) : Report × Nat :=
  mergeClientMessage st.1 inp.clientMessage inp.extracted inp.currentKey st.2

/-- A sequence of addClientMessage merges. -/
def applyMerges (st : Report × Nat) (inps : List MergeInput) : Report × Nat :=
  inps.foldl applyMerge st

/-- Number of freeform entries for a key in a data array. -/
def freeCount (k : String) (data : List DataEntry) : Nat :=
  (data.filter (fun e => e.key = k && e.type = "freeform")).length

/-- At most one freeform entry per key (checked on the keys that occur). -/
def uniqFree (data : List DataEntry) : Prop :=
  ∀ k ∈ data.map (·.key), freeCount k data ≤ 1

/-- The extracted entries for a key in a data array. -/
def extForKey (k : String) (data : List DataEntry) : List DataEntry :=
  data.filter (fun e => e.key = k && e.type = "extracted")

/-- Whether one merge input stores exactly one extracted entry for key k:
k is not the current question key and exactly one storable pair for k is in
the extraction result. -/
def storesOneExtractedFor (k : String) (inp : MergeInput) : Bool :=
  !(k = inp.currentKey) &&
    ((inp.extracted.filter (fun kv => kv.1 = k && storableVal kv.2)).length = 1)

/-- All ids of a data array are below the counter (id freshness). -/
def idsBelow (data : List DataEntry) (c : Nat) : Prop :=
  ∀ e ∈ data, e.id < c

/-- Every data entry value is a string (decidable form). -/
def allStringValuesB (data : List DataEntry) : Bool :=
  data.all (fun e => match e.value with | .vstr _ => true | _ => false)

/-- A key counts as answered in the sense of the specification: some data
entry for the key exists whose value is non-null and not an empty object, or
whose value is a none-equivalent token. -/
def specAnswered (data : List DataEntry) (k : String) : Prop :=
  ∃ e ∈ data, e.key = k ∧
    ((e.value ≠ JsVal.vnull ∧ isEmptyObjectLike e.value = false) ∨
      isNoneValueFull e.value = true)

/-- A question template row, restricted to the fields the orchestrator reads. -/
structure QuestionTemplate where
  id : Nat
  surveyId : Nat
  order : Int
  dataKey : String
  type : String
  questionTemplate : String
  successTemplate : String
  failTemplate : String
  final : Bool
deriving DecidableEq, Repr

/-- A question as handed to decideNextQuestion by decideAndAskNextQuestion
(lines 822-839): the template fields plus the data entries collected for its
dataKey, with undefined (none) standing for an empty collection. -/
structure QuestionCtx where
  id : Nat
  order : Int
  dataKey : String
  questionTemplate : String
  successTemplate : String
  failTemplate : String
  type : String
  final : Bool
  collectedData : Option (List DataEntry)
deriving DecidableEq, Repr

/-- Result of the next-question decision. -/
structure Decision where
  questionId : Option Nat
  message : String
  completed : Bool
deriving DecidableEq, Repr

/-- JS `question.collectedData && question.collectedData.length > 0`. -/
def hasDataQ (q : QuestionCtx) : Bool :=
  match q.collectedData with
  | some l => decide (l.length > 0)
  | none => false

/-- The loop of DummyImpl.decideNextQuestion (lines 237-247): first question
without data, and last question with data. -/
def scanNextPrev (qs : List QuestionCtx) :
    Option QuestionCtx × Option QuestionCtx :=
  qs.foldl
    (fun np q =>
      (if !hasDataQ q && np.1.isNone then some q else np.1,
       if hasDataQ q then some q else np.2))
    (none, none)

/-- DummyImpl.decideNextQuestion (lines 220-279).  The clientMessage,
currentReportData and lang arguments of the source are ignored by the Dummy
implementation and are omitted here. -/
def decideNextQuestion (allQuestions : List QuestionCtx) : Decision :=
  let np := scanNextPrev allQuestions
  match np.1 with
  | none =>
    let completionMessage :=
      match allQuestions.getLast? with
      | some lq =>
        if lq.final then lq.successTemplate else "Thank you! Survey completed."
      | none => "Thank you! Survey completed."
    { questionId := none, message := completionMessage, completed := true }
  | some nq =>
    let message :=
      match np.2 with
      | some pq =>
        if pq.successTemplate = "" then nq.questionTemplate
        else pq.successTemplate ++ "\n\n" ++ nq.questionTemplate
      | none => nq.questionTemplate
    { questionId := some nq.id, message := message, completed := false }

/-- Stable insertion of a question into a list sorted by ascending order. -/
def insertByOrder (q : QuestionTemplate) :
    List QuestionTemplate → List QuestionTemplate
  | [] => [q]
  | x :: xs => if q.order ≤ x.order then q :: x :: xs else x :: insertByOrder q xs

/-- Stable ascending sort by order (JS `sort((a, b) => a.order - b.order)`). -/
def sortByOrder (qs : List QuestionTemplate) : List QuestionTemplate :=
  qs.foldr insertByOrder []

/-- The questionsContext built by decideAndAskNextQuestion (lines 812-839). -/
def buildQuestionsContext (qts : List QuestionTemplate)
    (rdata : List DataEntry) : List QuestionCtx :=
  (sortByOrder qts).map (fun qt =>
    let collected := rdata.filter (fun d => decide (d.key = qt.dataKey))
    { id := qt.id, order := qt.order, dataKey := qt.dataKey,
      questionTemplate := qt.questionTemplate,
      successTemplate := qt.successTemplate, failTemplate := qt.failTemplate,
      type := qt.type, final := qt.final,
      collectedData := if collected.length > 0 then some collected else none })

/-- Session state stored (as JSON) on a survey session row. -/
structure SessionState where
  currentOrder : Int
  completed : Bool
deriving DecidableEq, Repr

/-- The state part of decideAndAskNextQuestion (lines 793-914): run the
decision on the current report, append the agent message to the conversation
when a question is asked, and end the session when completed.  Repository
writes are the identity on this model; session-message bookkeeping is not
read back by the decision and is elided. -/
def decideAndAskStep (qts : List QuestionTemplate) (r : Report)
    (session : SessionState) (c : Nat) :
    Decision × Report × SessionState × Nat :=
  let decision := decideNextQuestion (buildQuestionsContext qts r.data)
  let rc : Report × Nat :=
    match decision.questionId with
    | some qid =>
      ({ r with conversation :=
          r.conversation ++ [⟨c, "agent", decision.message, some qid⟩] }, c + 1)
    | none => (r, c)
  let session2 :=
    if decision.completed then { session with completed := true } else session
  (decision, rc.1, session2, rc.2)

/-- A survey session row: owning survey and the parsed session state. -/
structure SessionRec where
  surveyId : Nat
  state : SessionState
deriving DecidableEq, Repr

/-- endSession (lines 175-201) on the session rows: set completed to true on
the addressed session.  The not-found error path leaves the rows unchanged. -/
def endSessionRows (rows : List (Nat × SessionRec)) (sid : Nat) :
    List (Nat × SessionRec) :=
  rows.map (fun p =>
    if p.1 = sid then (p.1, { p.2 with state := { p.2.state with completed := true } })
    else p)

/-- updateSessionOrder (lines 559-579) on the session rows: set currentOrder
on the addressed session.  The not-found error path leaves the rows unchanged. -/
def setOrderRows (rows : List (Nat × SessionRec)) (sid : Nat) (n : Int) :
    List (Nat × SessionRec) :=
  rows.map (fun p =>
    if p.1 = sid then (p.1, { p.2 with state := { p.2.state with currentOrder := n } })
    else p)

/-- startSession (lines 101-173) on the session rows: create a fresh session
with currentOrder 1 and completed false under a fresh id. -/
def startRows (rows : List (Nat × SessionRec)) (surveyId : Nat) (nid : Nat) :
    List (Nat × SessionRec) :=
  rows ++ [(nid, { surveyId := surveyId, state := { currentOrder := 1, completed := false } })]

/-- One session-state operation of the service. -/
inductive SessionOp where
  | start : Nat → SessionOp
  | finish : Nat → SessionOp
  | setOrder : Nat → Int → SessionOp
deriving DecidableEq, Repr

/-- Apply one session-state operation to the session table and its id counter. -/
def applySessionOp (t : List (Nat × SessionRec) × Nat) (op : SessionOp) :
    List (Nat × SessionRec) × Nat :=
  match op with
  | .start surveyId => (startRows t.1 surveyId t.2, t.2 + 1)
  | .finish sid => (endSessionRows t.1 sid, t.2)
  | .setOrder sid n => (setOrderRows t.1 sid n, t.2)

/-- Apply a sequence of session-state operations. -/
def applySessionOps (t : List (Nat × SessionRec) × Nat) (ops : List SessionOp) :
    List (Nat × SessionRec) × Nat :=
  ops.foldl applySessionOp t

/-- A survey row, restricted to the fields the respond route reads. -/
structure SurveyRec where
  id : Nat
  externalId : String
  lang : String
deriving DecidableEq, Repr

/-- A session message row, restricted to the fields read by the conversation
history fallback. -/
structure SessionMessage where
  sessionId : Nat
  author : String
  text : String
deriving DecidableEq, Repr

/-- Persistent state visible to the respond route: the repositories as keyed
tables, plus the fresh-id counter. -/
structure World where
  sessions : List (Nat × SessionRec)
  surveys : List (Nat × SurveyRec)
  questionTemplates : List QuestionTemplate
  reports : List (Nat × Report)
  messages : List SessionMessage
  counter : Nat
deriving DecidableEq, Repr

/-- Result object of getCurrentReportData (lines 433-484): the parsed report
together with its _flatData view. -/
structure FullReportData where
  conversation : List ConversationEntry
  data : List DataEntry
  flatData : List (String × JsVal)
deriving DecidableEq, Repr

/-- getCurrentReportData on the world: the report of the session together
with the flattened view of its data array. -/
def getCurrentReportDataW (w : World) (sid : Nat) : Option FullReportData :=
  match assoc sid w.reports with
  | none => none
  | some r =>
    some { conversation := r.conversation, data := r.data,
           flatData := flattenPairs r.data }

/-- The question/answer pairing of getConversationHistory (lines 384-397):
each agent text is matched with the next client text. -/
def pairTranscript (cur : Option String) :
    List (String × String) → List (String × String)
  | [] => []
  | m :: rest =>
    if m.1 = "agent" then pairTranscript (some m.2) rest
    else if m.1 = "client" then
      match cur with
      | some q => (q, m.2) :: pairTranscript none rest
      | none => pairTranscript none rest
    else pairTranscript cur rest

/-- getConversationHistory (lines 373-431): question/answer pairs from the
report conversation, falling back to the session messages when the session
has no report. -/
def getConversationHistoryW (w : World) (sid : Nat) : List (String × String) :=
  match assoc sid w.reports with
  | some r => pairTranscript none (r.conversation.map (fun m => (m.author, m.text)))
  | none =>
    pairTranscript none
      ((w.messages.filter (fun m => m.sessionId == sid)).map (fun m => (m.author, m.text)))

/-- The per-candidate answered check of the respond route (Survey.ts lines
296-311) over the flattened data state: the key is present, its value is not
null (or is one of the none-equivalent strings, which are not null anyway),
and is not an empty object. -/
def hasDataCheck (flat : List (String × JsVal)) (k : String) : Bool :=
  match assoc k flat with
  | none => false
  | some v =>
    (decide (v ≠ JsVal.vnull) || isNoneValueMerge v) && !(isEmptyObjectLike v)

/-- The per-key completion check of the respond route (Survey.ts lines
351-363): the value of the first data entry for the key, falling back to the
flattened value when that entry value is falsy, must be non-null (or a
none-equivalent string) and not an empty object. -/
def keyProvided (dataArr : List DataEntry) (flat : List (String × JsVal))
    (k : String) : Bool :=
  let value : Option JsVal :=
    match firstForKey dataArr k with
    | some e => if jsTruthy e.value then some e.value else assoc k flat
    | none => assoc k flat
  ((match value with | some v => decide (v ≠ JsVal.vnull) | none => false) ||
      (match value with | some v => isNoneValueFull v | none => false)) &&
    !(match value with | some v => isEmptyObjectLike v | none => false)

/-- The next-question scan of the respond route (lines 271-325): walk the
orders from currentOrder + 1 up to the maximal order, skipping questions
whose dataKey already has data, and stop at a missing order. -/
def findNextLoop (qts : List QuestionTemplate) (surveyId : Nat)
    (flat : List (String × JsVal)) (nextOrder mo : Int) :
    Option QuestionTemplate × Int :=
  if _h : nextOrder ≤ mo then
    match qts.find? (fun qt => qt.surveyId == surveyId && qt.order == nextOrder) with
    | none => (none, nextOrder)
    | some cand =>
      if hasDataCheck flat cand.dataKey then
        findNextLoop qts surveyId flat (nextOrder + 1) mo
      else (some cand, nextOrder)
  else (none, nextOrder)
termination_by (mo + 1 - nextOrder).toNat
decreasing_by omega

/-- Arguments of the extraction capability as assembled by the respond route. -/
structure ExtractDataArgs where
  text : String
  currentQuestionDataKey : String
  currentQuestionType : String
  allDataKeys : List String
  allQuestionTypes : List (String × String)
  lang : String
  currentDataState : Option FullReportData
  previousConversation : Option (List (String × String))
deriving DecidableEq, Repr

/-- Arguments of combineFailWithQuestion as assembled by the respond route. -/
structure CombineFailArgs where
  fail : String
  question : String
  lang : String
  currentDataState : Option FullReportData
  previousConversation : Option (List (String × String))
deriving DecidableEq, Repr

/-- Arguments of combineSuccessWithQuestion as assembled by the respond route. -/
structure CombineSuccessArgs where
  success : String
  question : String
  lang : String
  currentDataState : Option (List (String × JsVal))
  previousConversation : Option (List (String × String))
deriving DecidableEq, Repr

/-- Arguments of rephraseQuestion as assembled by the routes. -/
structure RephraseQuestionArgs where
  question : String
  lang : String
  currentDataState : Option (List (String × JsVal))
  previousConversation : Option (List (String × String))
deriving DecidableEq, Repr

/-- The pluggable language collaborator, as consumed by the respond route. -/
structure AiModel where
  extractData : ExtractDataArgs → Option (List (String × JsVal))
  rephraseQuestion : RephraseQuestionArgs → String
  rephraseCompletion : String → String → String
  combineSuccess : CombineSuccessArgs → String
  combineFail : CombineFailArgs → String

/-- Reply sent by the respond route. -/
structure RespondReply where
  status : Nat
  message : Option String
  error : Option String
  completed : Option Bool
  sessionId : Option Nat
deriving DecidableEq, Repr

/-- Language normalisation of the routes: en or ru, defaulting to en. -/
def respondLang (survey : SurveyRec) : String :=
  if survey.lang = "en" || survey.lang = "ru" then survey.lang else "en"

/-- getQuestionBySurveyIdAndOrder: first template of the survey at an order. -/
def respondQT (w : World) (surveyId : Nat) (ord : Int) : Option QuestionTemplate :=
  w.questionTemplates.find? (fun qt => qt.surveyId == surveyId && qt.order == ord)

/-- Templates of one survey (findBySurveyId, in table order). -/
def surveyQTs (w : World) (surveyId : Nat) : List QuestionTemplate :=
  w.questionTemplates.filter (fun qt => qt.surveyId == surveyId)

/-- The extraction request assembled by the respond route (lines 150-177). -/
def respondExtractArgs (w : World) (sid : Nat) (qt : QuestionTemplate)
    (surveyId : Nat) (lang : String) (text : String) : ExtractDataArgs :=
  let prevConv := getConversationHistoryW w sid
  { text := text,
    currentQuestionDataKey := qt.dataKey,
    currentQuestionType := qt.type,
    allDataKeys := (surveyQTs w surveyId).map (·.dataKey),
    allQuestionTypes := (surveyQTs w surveyId).map (fun q => (q.dataKey, q.type)),
    lang := lang,
    currentDataState := getCurrentReportDataW w sid,
    previousConversation := if prevConv.length > 0 then some prevConv else none }

/-- The combineFailWithQuestion request assembled by the fail branch of the
respond route (lines 199-217). -/
def respondFailArgs (w : World) (sid : Nat) (qt : QuestionTemplate)
    (lang : String) : CombineFailArgs :=
  let prevConv := getConversationHistoryW w sid
  { fail := qt.failTemplate,
    question := qt.questionTemplate,
    lang := lang,
    currentDataState := getCurrentReportDataW w sid,
    previousConversation := if prevConv.length > 0 then some prevConv else none }

/-- endSession lifted to the world. -/
def endSessionW (w : World) (sid : Nat) : World :=
  { w with sessions := endSessionRows w.sessions sid }

/-- updateSessionOrder lifted to the world. -/
def updateSessionOrderW (w : World) (sid : Nat) (n : Int) : World :=
  { w with sessions := setOrderRows w.sessions sid n }

/-- addAgentQuestionToConversation (lines 486-533): append an agent entry to
the report conversation; missing report is a silent no-op. -/
def addAgentQuestionW (w : World) (sid : Nat) (qid : Nat) (text : String) : World :=
  match assoc sid w.reports with
  | none => w
  | some _ =>
    { w with
      reports := w.reports.map (fun p =>
        if p.1 = sid then
          (p.1, { p.2 with conversation :=
            p.2.conversation ++ [⟨w.counter, "agent", text, some qid⟩] })
        else p),
      counter := w.counter + 1 }

/-- The POST /s/:externalId/respond handler (Survey.ts lines 88-488).
Notes on the source:
- the rephraseQuestionArgs object built at lines 181-197 of the fail branch
  is never used and is omitted;
- addQuestionAnswer is a deprecated no-op in the service and contributes no
  state change;
- `skippedCount > 0 && updatedDataState` reduces to `skippedCount > 0`
  because updatedDataState is always an object;
- the success path ends at line 474 reading `answer.id` where answer is the
  undefined result of the void addQuestionAnswer, so it raises a TypeError
  that the catch block turns into a 500 reply after the session-order update
  and the agent-message write have already been issued; the model abbreviates
  the engine wording of that message. -/
def respond (ai : AiModel) (w : World) (sid : Nat) (answerText : String) :
    RespondReply × World :=
  match assoc sid w.sessions with
  | none =>
    ({ status := 404, message := none, error := some "Session not found",
       completed := none, sessionId := none }, w)
  | some session =>
    let currentOrder := session.state.currentOrder
    match assoc session.surveyId w.surveys with
    | none =>
      ({ status := 404, message := none, error := some "Survey not found",
         completed := none, sessionId := none }, w)
    | some survey =>
      let lang := respondLang survey
      match respondQT w survey.id currentOrder with
      | none =>
        ({ status := 404, message := none, error := some "Question not found",
           completed := none, sessionId := none }, w)
      | some questionTemplate =>
        let allQTs := surveyQTs w survey.id
        let allDataKeys := allQTs.map (·.dataKey)
        match ai.extractData
            (respondExtractArgs w sid questionTemplate survey.id lang answerText) with
        | none =>
          let failMessage := ai.combineFail (respondFailArgs w sid questionTemplate lang)
          ({ status := 200, message := some failMessage, error := none,
             completed := none, sessionId := some sid }, w)
        | some _extractedData =>
          if questionTemplate.final then
            let w2 := endSessionW w sid
            let finalMessage := ai.rephraseCompletion questionTemplate.successTemplate lang
            ({ status := 200, message := some finalMessage, error := none,
               completed := some true, sessionId := none }, w2)
          else
            let raw2 := getCurrentReportDataW w sid
            let updatedDataState :=
              match raw2 with | some r => r.flatData | none => []
            let scan :=
              match (allQTs.map (·.order)).max? with
              | none => ((none : Option QuestionTemplate), currentOrder + 1)
              | some mo =>
                findNextLoop w.questionTemplates survey.id updatedDataState
                  (currentOrder + 1) mo
            let dataArray := match raw2 with | some r => r.data | none => []
            let allProvided :=
              allDataKeys.all (fun k => keyProvided dataArray updatedDataState k)
            let completionResult :=
              let finalQuestion := allQTs.find? (·.final)
              let completionMessage :=
                match finalQuestion with
                | some fq => ai.rephraseCompletion fq.successTemplate lang
                | none => "Thank you for completing the survey!"
              ({ status := 200, message := some completionMessage, error := none,
                 completed := some true, sessionId := none }, endSessionW w sid)
            match scan.1 with
            | none => completionResult
            | some nq =>
              if allProvided then completionResult
              else
                let nextOrder := scan.2
                let w2 := updateSessionOrderW w sid nextOrder
                let updatedConversation := getConversationHistoryW w2 sid
                let skippedCount := nextOrder - (currentOrder + 1)
                let ackPair : String × Bool :=
                  if skippedCount > 0 then
                    let skippedKeys :=
                      ((allQTs.filter (fun qt =>
                          qt.order > currentOrder && qt.order < nextOrder)).map
                        (·.dataKey)).filter
                        (fun k =>
                          match assoc k updatedDataState with
                          | some v => decide (v ≠ JsVal.vnull)
                          | none => false)
                    if skippedKeys.length > 0 then
                      let prompt := questionTemplate.successTemplate ++
                        "\n\nThe user has already provided information for: " ++
                        String.intercalate ", " skippedKeys ++
                        ". Acknowledge this briefly and naturally, then ask the next question: " ++
                        nq.questionTemplate
                      (ai.rephraseQuestion
                        { question := prompt, lang := lang,
                          currentDataState := some updatedDataState,
                          previousConversation :=
                            if updatedConversation.length > 0 then
                              some updatedConversation
                            else none },
                        true)
                    else (nq.questionTemplate, false)
                  else (nq.questionTemplate, false)
                let finalMessage :=
                  if ackPair.2 then ackPair.1
                  else
                    ai.combineSuccess
                      { success := questionTemplate.successTemplate,
                        question := ackPair.1, lang := lang,
                        currentDataState := some updatedDataState,
                        previousConversation :=
                          if updatedConversation.length > 0 then
                            some updatedConversation
                          else none }
                let w3 := addAgentQuestionW w2 sid nq.id finalMessage
                ({ status := 500,
                   message := some "Cannot read properties of undefined",
                   error := some "Failed to process survey response",
                   completed := none, sessionId := none }, w3)

/-- The Dummy language collaborator text capabilities (DummyImpl lines
22-95) together with an extraction capability that fails, modelling a turn
on which the collaborator returns null. -/
def failingExtractionAi : AiModel :=
  { extractData := fun _ => none,
    rephraseQuestion := fun a => a.question,
    rephraseCompletion := fun t _ => t,
    combineSuccess := fun a => a.success ++ "\n\n" ++ a.question,
    combineFail := fun a => a.fail ++ "\n\n" ++ a.question }


/-! Helper lemmas on association lists and the flatten fold. -/

theorem assoc_append {κ α : Type} [DecidableEq κ] (k : κ) (l₁ l₂ : List (κ × α)) :
    assoc k (l₁ ++ l₂) =
      match assoc k l₁ with
      | some v => some v
      | none => assoc k l₂ := by
  induction l₁ with
  | nil => simp [assoc]
  | cons p ps ih =>
    by_cases h : p.1 = k
    · simp [assoc, h]
    · simp [assoc, h, ih]

theorem assoc_map_upd {κ α : Type} [DecidableEq κ] (k ek : κ) (nv : α)
    (l : List (κ × α)) :
    assoc k (l.map (fun q => if q.1 = ek then (ek, nv) else q)) =
      if k = ek then (assoc k l).map (fun _ => nv) else assoc k l := by
  induction l with
  | nil => by_cases h : k = ek <;> simp [assoc, h]
  | cons p ps ih =>
    by_cases hp : p.1 = ek
    · by_cases hk : k = ek
      · simp [assoc, hp, hk]
      · have hek : ¬ (ek = k) := fun h => hk h.symm
        have hpk : ¬ (p.1 = k) := by rw [hp]; exact hek
        simp [assoc, hp, hk, hpk, hek, ih]
    · by_cases hpk : p.1 = k
      · have hk : ¬ (k = ek) := by rw [← hpk]; exact hp
        simp [assoc, hp, hpk, hk]
      · simp [assoc, hp, hpk, ih]

theorem assoc_map_snd {κ α β : Type} [DecidableEq κ] (k : κ) (f : α → β)
    (l : List (κ × α)) :
    assoc k (l.map (fun p => (p.1, f p.2))) = (assoc k l).map f := by
  induction l with
  | nil => simp [assoc]
  | cons p ps ih =>
    by_cases h : p.1 = k
    · simp [assoc, h]
    · simp [assoc, h, ih]

theorem firstFree_cons_pos {e : DataEntry} {k : String} (rest : List DataEntry)
    (hk : e.key = k) (ht : e.type = "freeform") :
    firstFree (e :: rest) k = some e := by
  simp [firstFree, List.find?_cons, hk, ht]

theorem firstFree_cons_neg {e : DataEntry} {k : String} (rest : List DataEntry)
    (h : ¬ (e.key = k ∧ e.type = "freeform")) :
    firstFree (e :: rest) k = firstFree rest k := by
  by_cases hk : e.key = k
  · by_cases ht : e.type = "freeform"
    · exact absurd ⟨hk, ht⟩ h
    · simp [firstFree, List.find?_cons, hk, ht]
  · simp [firstFree, List.find?_cons, hk]

theorem pickSpec_cons_ne {e : DataEntry} {k : String} (rest : List DataEntry)
    (hk : ¬ (e.key = k)) : pickSpec (e :: rest) k = pickSpec rest k := by
  simp [pickSpec, hk]

theorem updEntry_none {acc : List (String × String × JsVal)} {e : DataEntry}
    (h : assoc e.key acc = none) :
    updEntry acc e = acc ++ [(e.key, e.type, e.value)] := by
  unfold updEntry
  rw [h]

theorem updEntry_some_repl {acc : List (String × String × JsVal)} {e : DataEntry}
    {tv : String × JsVal} (h : assoc e.key acc = some tv)
    (hc : (tv.1 = "extracted" && e.type = "freeform") = true) :
    updEntry acc e =
      acc.map (fun q => if q.1 = e.key then (e.key, e.type, e.value) else q) := by
  unfold updEntry
  rw [h]
  exact if_pos hc

theorem updEntry_some_keep {acc : List (String × String × JsVal)} {e : DataEntry}
    {tv : String × JsVal} (h : assoc e.key acc = some tv)
    (hc : ¬ ((tv.1 = "extracted" && e.type = "freeform") = true)) :
    updEntry acc e = acc := by
  unfold updEntry
  rw [h]
  exact if_neg hc

theorem assoc_updEntry (acc : List (String × String × JsVal)) (e : DataEntry)
    (k : String) :
    assoc k (updEntry acc e) =
      if e.key = k then
        match assoc k acc with
        | none => some (e.type, e.value)
        | some tv =>
          if tv.1 = "extracted" && e.type = "freeform" then
            some (e.type, e.value)
          else some tv
      else assoc k acc := by
  cases hacc : assoc e.key acc with
  | none =>
    rw [updEntry_none hacc, assoc_append]
    by_cases hk : e.key = k
    · subst hk
      simp [hacc, assoc]
    · have hk2 : ¬ (e.key = k) := hk
      cases h3 : assoc k acc with
      | none => simp [hk2, h3, assoc, fun h => hk (Eq.symm h)]
      | some v => simp [hk2, h3]
  | some tv =>
    by_cases hcond : (tv.1 = "extracted" && e.type = "freeform") = true
    · rw [updEntry_some_repl hacc hcond,
        assoc_map_upd k e.key (e.type, e.value) acc]
      by_cases hk : e.key = k
      · subst hk
        simp [hacc, hcond]
      · have hke : ¬ (k = e.key) := fun h => hk h.symm
        simp [hk, hke]
    · rw [updEntry_some_keep hacc hcond]
      by_cases hk : e.key = k
      · subst hk
        simp [hacc, hcond]
      · simp [hk]

theorem assoc_entriesFold (data : List DataEntry) (k : String) :
    ∀ acc, assoc k (data.foldl updEntry acc) =
      match assoc k acc with
      | some tv =>
        if tv.1 = "extracted" then
          match firstFree data k with
          | some f => some (f.type, f.value)
          | none => some tv
        else some tv
      | none => pickSpec data k := by
  induction data with
  | nil =>
    intro acc
    cases hacc : assoc k acc with
    | none => simp [hacc, pickSpec]
    | some tv =>
      by_cases h : tv.1 = "extracted" <;> simp [hacc, h, firstFree]
  | cons e rest ih =>
    intro acc
    rw [List.foldl_cons, ih (updEntry acc e), assoc_updEntry]
    by_cases hk : e.key = k
    · rw [if_pos hk]
      cases hacc : assoc k acc with
      | none =>
        by_cases het : e.type = "extracted"
        · have hnf : ¬ (e.type = "freeform") := by
            rw [het]; intro h; simp at h
          have hfind := firstFree_cons_neg (e := e) (k := k) rest
            (fun hh => hnf hh.2)
          simp [hacc, het, pickSpec, hk, hfind]
        · simp [hacc, het, pickSpec, hk]
      | some tv =>
        by_cases htv : tv.1 = "extracted"
        · by_cases hff : e.type = "freeform"
          · have hcond : (tv.1 = "extracted" && e.type = "freeform") = true := by
              simp [htv, hff]
            have hnotex : ¬ (e.type = "extracted") := by
              rw [hff]; intro h; simp at h
            have hfind := firstFree_cons_pos (e := e) (k := k) rest hk hff
            simp [hacc, hcond, htv, hnotex, hfind, hff]
          · have hcond : ¬ ((tv.1 = "extracted" && e.type = "freeform") = true) := by
              simp [hff]
            have hfind := firstFree_cons_neg (e := e) (k := k) rest
              (fun hh => hff hh.2)
            simp [hacc, hcond, htv, hfind, hff]
        · have hcond : ¬ ((tv.1 = "extracted" && e.type = "freeform") = true) := by
            simp [htv]
          simp [hacc, hcond, htv]
    · rw [if_neg hk]
      have hfind := firstFree_cons_neg (e := e) (k := k) rest (fun hh => hk hh.1)
      have hpick := pickSpec_cons_ne (e := e) (k := k) rest hk
      cases hacc : assoc k acc with
      | none => simp [hacc, hpick]
      | some tv =>
        by_cases htv : tv.1 = "extracted" <;> simp [hacc, htv, hfind]

theorem flattenLookup_eq_pick (data : List DataEntry) (k : String) :
    flattenLookup data k = (pickSpec data k).map (·.2) := by
  unfold flattenLookup flattenPairs entriesByKey
  rw [assoc_map_snd k (·.2) (data.foldl updEntry []), assoc_entriesFold data k []]
  simp [assoc]

theorem pickSpec_none_iff (data : List DataEntry) (k : String) :
    pickSpec data k = none ↔ ∀ e ∈ data, e.key ≠ k := by
  induction data with
  | nil => simp [pickSpec]
  | cons e rest ih =>
    by_cases hk : e.key = k
    · constructor
      · intro h
        exfalso
        by_cases het : e.type = "extracted"
        · cases hf : firstFree rest k <;> simp [pickSpec, hk, het, hf] at h
        · simp [pickSpec, hk, het] at h
      · intro h
        exact absurd hk (h e (List.mem_cons_self e rest))
    · rw [pickSpec_cons_ne rest hk, ih]
      constructor
      · intro h x hx
        rcases List.mem_cons.mp hx with h1 | h2
        · rw [h1]; exact hk
        · exact h x h2
      · intro h x hx
        exact h x (List.mem_cons_of_mem e hx)

theorem pickSpec_mem (data : List DataEntry) (k : String) (tv : String × JsVal)
    (h : pickSpec data k = some tv) :
    ∃ e ∈ data, e.key = k ∧ e.type = tv.1 ∧ e.value = tv.2 := by
  induction data with
  | nil => cases h
  | cons e rest ih =>
    by_cases hk : e.key = k
    · by_cases het : e.type = "extracted"
      · cases hf : firstFree rest k with
        | none =>
          simp [pickSpec, hk, het, hf] at h
          subst h
          exact ⟨e, List.mem_cons_self e rest, hk, het, rfl⟩
        | some f =>
          simp [pickSpec, hk, het, hf] at h
          subst h
          have hmem := List.mem_of_find?_eq_some hf
          have hprop := List.find?_some hf
          simp only [Bool.and_eq_true, decide_eq_true_eq] at hprop
          exact ⟨f, List.mem_cons_of_mem e hmem, hprop.1, rfl, rfl⟩
      · simp [pickSpec, hk, het] at h
        subst h
        exact ⟨e, List.mem_cons_self e rest, hk, rfl, rfl⟩
    · rw [pickSpec_cons_ne rest hk] at h
      rcases ih h with ⟨x, hx, hxk, hxt, hxv⟩
      exact ⟨x, List.mem_cons_of_mem e hx, hxk, hxt, hxv⟩

theorem pickSpec_freeform (data : List DataEntry) (k : String) (e : DataEntry)
    (htypes : ∀ x ∈ data, x.key = k → (x.type = "freeform" ∨ x.type = "extracted"))
    (he : e ∈ data) (hek : e.key = k) (het : e.type = "freeform")
    (huniq : ∀ x ∈ data, x.key = k → x.type = "freeform" → x = e) :
    pickSpec data k = some (e.type, e.value) := by
  induction data with
  | nil => cases he
  | cons x rest ih =>
    by_cases hxk : x.key = k
    · rcases htypes x (List.mem_cons_self x rest) hxk with hxf | hxe
      · have hxeq : x = e := huniq x (List.mem_cons_self x rest) hxk hxf
        subst hxeq
        have hnotex : ¬ (x.type = "extracted") := by
          rw [het]; simp
        simp [pickSpec, hxk, hnotex]
      · have hxne : x ≠ e := by
          intro hcon
          rw [hcon, het] at hxe
          simp at hxe
        have hemem : e ∈ rest := by
          rcases List.mem_cons.mp he with h1 | h2
          · exact absurd h1.symm hxne
          · exact h2
        cases hf : firstFree rest k with
        | none =>
          exfalso
          have hnone := List.find?_eq_none.mp hf e hemem
          simp [hek, het] at hnone
        | some f =>
          have hmem := List.mem_of_find?_eq_some hf
          have hprop := List.find?_some hf
          simp only [Bool.and_eq_true, decide_eq_true_eq] at hprop
          have hfeq : f = e :=
            huniq f (List.mem_cons_of_mem x hmem) hprop.1 hprop.2
          simp [pickSpec, hxk, hxe, hf, hfeq]
    · have hemem : e ∈ rest := by
        rcases List.mem_cons.mp he with h1 | h2
        · exfalso; rw [h1] at hek; exact hxk hek
        · exact h2
      rw [pickSpec_cons_ne rest hxk]
      exact ih (fun y hy => htypes y (List.mem_cons_of_mem x hy)) hemem
        (fun y hy => huniq y (List.mem_cons_of_mem x hy))

theorem pickSpec_extr (data : List DataEntry) (k : String) (e : DataEntry)
    (hall : ∀ x ∈ data, x.key = k → x.type = "extracted")
    (hfirst : firstForKey data k = some e) :
    pickSpec data k = some (e.type, e.value) := by
  induction data with
  | nil => cases hfirst
  | cons x rest ih =>
    by_cases hxk : x.key = k
    · have hxe : x.type = "extracted" := hall x (List.mem_cons_self x rest) hxk
      have hxeq : x = e := by
        unfold firstForKey at hfirst
        rw [List.find?_cons] at hfirst
        simp [hxk] at hfirst
        exact hfirst
      subst hxeq
      have hnone : firstFree rest k = none := by
        apply List.find?_eq_none.mpr
        intro y hy
        by_cases hyk : y.key = k
        · have := hall y (List.mem_cons_of_mem x hy) hyk
          simp [hyk, this]
        · simp [hyk]
      simp [pickSpec, hxk, hxe, hnone]
    · have hfirst2 : firstForKey rest k = some e := by
        unfold firstForKey at hfirst ⊢
        rw [List.find?_cons] at hfirst
        simp [hxk] at hfirst
        exact hfirst
      rw [pickSpec_cons_ne rest hxk]
      exact ih (fun y hy => hall y (List.mem_cons_of_mem x hy)) hfirst2

theorem flattenLookup_none_iff (data : List DataEntry) (k : String) :
    flattenLookup data k = none ↔ ∀ e ∈ data, e.key ≠ k := by
  rw [flattenLookup_eq_pick]
  constructor
  · intro h
    have hp : pickSpec data k = none := by
      cases hp : pickSpec data k with
      | none => rfl
      | some tv => rw [hp] at h; cases h
    exact (pickSpec_none_iff data k).mp hp
  · intro h
    rw [(pickSpec_none_iff data k).mpr h]
    rfl

theorem flattenLookup_mem (data : List DataEntry) (k : String) (v : JsVal)
    (h : flattenLookup data k = some v) :
    ∃ e ∈ data, e.key = k ∧ e.value = v := by
  rw [flattenLookup_eq_pick] at h
  cases hp : pickSpec data k with
  | none => rw [hp] at h; cases h
  | some tv =>
    rw [hp] at h
    simp only [Option.map_some', Option.some.injEq] at h
    rcases pickSpec_mem data k tv hp with ⟨e, he, hek, _, hv⟩
    exact ⟨e, he, hek, by rw [hv, h]⟩

/-- C1: for every report whose entries for the key are freeform or extracted,
the flattened view built by getCurrentReportData gives the key the value of
its freeform entry whenever a freeform entry for the key exists (whatever the
number and position of extracted entries), and the value of the first
extracted entry when only extracted entries exist for the key. -/
theorem flatten_precedence (data : List DataEntry) (k : String)
    (htypes : ∀ e ∈ data, e.key = k → (e.type = "freeform" ∨ e.type = "extracted")) :
    (∀ e ∈ data, e.key = k → e.type = "freeform" →
      (∀ x ∈ data, x.key = k → x.type = "freeform" → x = e) →
      flattenLookup data k = some e.value)
    ∧ (∀ e, (∀ x ∈ data, x.key = k → x.type = "extracted") →
        firstForKey data k = some e → flattenLookup data k = some e.value) := by
  constructor
  · intro e he hek het huniq
    rw [flattenLookup_eq_pick, pickSpec_freeform data k e htypes he hek het huniq]
    rfl
  · intro e hall hfirst
    rw [flattenLookup_eq_pick, pickSpec_extr data k e hall hfirst]
    rfl

/-- Witness for C1: a freeform entry wins over surrounding extracted entries,
and with only extracted entries the first one wins. -/
theorem flatten_precedence_witness :
    flattenLookup
        [⟨1, "k", .vstr "x1", "extracted"⟩, ⟨2, "k", .vstr "fv", "freeform"⟩,
          ⟨3, "k", .vstr "x2", "extracted"⟩] "k" = some (.vstr "fv")
    ∧ flattenLookup
        [⟨4, "k", .vstr "e1", "extracted"⟩, ⟨5, "k", .vstr "e2", "extracted"⟩]
        "k" = some (.vstr "e1") := by
  constructor
  · exact (flatten_precedence _ "k" (by decide)).1
      ⟨2, "k", .vstr "fv", "freeform"⟩ (by decide) rfl rfl (by decide)
  · exact (flatten_precedence _ "k" (by decide)).2
      ⟨4, "k", .vstr "e1", "extracted"⟩ (by decide) (by decide)

/-- C6: on the reports this system stores (every data value a string), both
answered checks of the respond route hold for a key exactly when some data
entry for the key exists whose value is non-null and not an empty object or
is a none-equivalent token, as the specification states. -/
theorem answered_checks_iff (data : List DataEntry) (k : String)
    (hs : allStringValuesB data = true) :
    (hasDataCheck (flattenPairs data) k = true ↔ specAnswered data k)
    ∧ (keyProvided data (flattenPairs data) k = true ↔ specAnswered data k) := by
  have hstr : ∀ e ∈ data, ∃ s, e.value = JsVal.vstr s := by
    intro e he
    have h1 := List.all_eq_true.mp hs e he
    cases hv : e.value with
    | vstr s => exact ⟨s, rfl⟩
    | vnull => rw [hv] at h1; simp at h1
    | vnum n => rw [hv] at h1; simp at h1
    | vbool b => rw [hv] at h1; simp at h1
    | varr l => rw [hv] at h1; simp at h1
    | vobj l => rw [hv] at h1; simp at h1
  have hiff : specAnswered data k ↔ ∃ e ∈ data, e.key = k := by
    constructor
    · rintro ⟨e, he, hek, _⟩; exact ⟨e, he, hek⟩
    · rintro ⟨e, he, hek⟩
      rcases hstr e he with ⟨s, hv⟩
      refine ⟨e, he, hek, Or.inl ⟨?_, ?_⟩⟩
      · rw [hv]; intro hcon; cases hcon
      · rw [hv]; rfl
  have hflat : ∀ v, assoc k (flattenPairs data) = some v →
      ∃ s, v = JsVal.vstr s ∧ ∃ e ∈ data, e.key = k := by
    intro v hv
    rcases flattenLookup_mem data k v hv with ⟨e, he, hek, hval⟩
    rcases hstr e he with ⟨s, hs2⟩
    exact ⟨s, by rw [← hval, hs2], e, he, hek⟩
  constructor
  · cases hv : assoc k (flattenPairs data) with
    | none =>
      have hc : hasDataCheck (flattenPairs data) k = false := by
        unfold hasDataCheck; rw [hv]
      have hnone := (flattenLookup_none_iff data k).mp hv
      rw [hc]
      constructor
      · intro h; cases h
      · intro hspec
        rcases hiff.mp hspec with ⟨e, he, hek⟩
        exact absurd hek (hnone e he)
    | some v =>
      rcases hflat v hv with ⟨s, hvs, e, he, hek⟩
      have hc : hasDataCheck (flattenPairs data) k = true := by
        unfold hasDataCheck
        rw [hv, hvs]
        simp [isEmptyObjectLike]
      rw [hc]
      constructor
      · intro _; exact hiff.mpr ⟨e, he, hek⟩
      · intro _; rfl
  · cases hf : firstForKey data k with
    | none =>
      have hnok : ∀ e ∈ data, ¬ (e.key = k) := by
        intro e he
        have := List.find?_eq_none.mp hf e he
        simpa using this
      have hvnone : assoc k (flattenPairs data) = none :=
        (flattenLookup_none_iff data k).mpr hnok
      have hc : keyProvided data (flattenPairs data) k = false := by
        simp [keyProvided, hf, hvnone]
      rw [hc]
      constructor
      · intro h; cases h
      · intro hspec
        rcases hiff.mp hspec with ⟨e, he, hek⟩
        exact absurd hek (hnok e he)
    | some e =>
      have hmem := List.mem_of_find?_eq_some hf
      have hek : e.key = k := by simpa using List.find?_some hf
      rcases hstr e hmem with ⟨s, hv⟩
      have hc : keyProvided data (flattenPairs data) k = true := by
        by_cases hse : s = ""
        · have ht : jsTruthy e.value = false := by rw [hv, hse]; rfl
          have hex : ¬ (assoc k (flattenPairs data) = none) := by
            intro hn
            exact absurd hek ((flattenLookup_none_iff data k).mp hn e hmem)
          cases hv2 : assoc k (flattenPairs data) with
          | none => exact absurd hv2 hex
          | some v =>
            rcases hflat v hv2 with ⟨s2, hvs2, _⟩
            simp [keyProvided, hf, ht, hv2, hvs2, isEmptyObjectLike]
        · have ht2 : jsTruthy (JsVal.vstr s) = true := by simp [jsTruthy, hse]
          simp [keyProvided, hf, hv, ht2, isEmptyObjectLike]
      rw [hc]
      constructor
      · intro _; exact hiff.mpr ⟨e, hmem, hek⟩
      · intro _; rfl

/-- Witness for C6: the report with the single freeform entry
roadblocks/none counts roadblocks as answered under both checks. -/
theorem answered_checks_iff_witness :
    allStringValuesB [⟨1, "roadblocks", .vstr "none", "freeform"⟩] = true
    ∧ (hasDataCheck (flattenPairs [⟨1, "roadblocks", .vstr "none", "freeform"⟩])
          "roadblocks" = true
        ↔ specAnswered [⟨1, "roadblocks", .vstr "none", "freeform"⟩] "roadblocks")
    ∧ hasDataCheck (flattenPairs [⟨1, "roadblocks", .vstr "none", "freeform"⟩])
        "roadblocks" = true
    ∧ keyProvided [⟨1, "roadblocks", .vstr "none", "freeform"⟩]
        (flattenPairs [⟨1, "roadblocks", .vstr "none", "freeform"⟩])
        "roadblocks" = true :=
  ⟨by decide, (answered_checks_iff _ "roadblocks" (by decide)).1, by decide, by decide⟩

/-! Lemmas on updAt, findFreeIdx and entry counts. -/

theorem length_updAt {α : Type} (i : Nat) (f : α → α) (l : List α) :
    (updAt i f l).length = l.length := by
  induction l generalizing i with
  | nil => simp [updAt]
  | cons x xs ih =>
    cases i with
    | zero => simp [updAt]
    | succ n => simp [updAt, ih]

theorem getElem?_updAt_ne {α : Type} (i j : Nat) (f : α → α) (l : List α)
    (h : j ≠ i) : (updAt i f l)[j]? = l[j]? := by
  induction l generalizing i j with
  | nil => simp [updAt]
  | cons x xs ih =>
    cases i with
    | zero =>
      cases j with
      | zero => exact absurd rfl h
      | succ m => simp [updAt]
    | succ n =>
      cases j with
      | zero => simp [updAt]
      | succ m =>
        simp only [updAt, List.getElem?_cons_succ]
        exact ih n m (fun hc => h (by rw [hc]))

theorem getElem?_updAt_self {α : Type} (i : Nat) (f : α → α) (l : List α) :
    (updAt i f l)[i]? = (l[i]?).map f := by
  induction l generalizing i with
  | nil => simp [updAt]
  | cons x xs ih =>
    cases i with
    | zero => simp [updAt]
    | succ n => simp [updAt, ih]

theorem findFreeIdx_some {k : String} {l : List DataEntry} {i : Nat}
    (h : findFreeIdx k l = some i) :
    ∃ e, l[i]? = some e ∧ e.key = k ∧ e.type = "freeform" := by
  induction l generalizing i with
  | nil => cases h
  | cons x xs ih =>
    by_cases hp : (x.key = k && x.type = "freeform") = true
    · unfold findFreeIdx at h
      rw [if_pos hp] at h
      cases h
      simp only [Bool.and_eq_true, decide_eq_true_eq] at hp
      exact ⟨x, by simp, hp.1, hp.2⟩
    · unfold findFreeIdx at h
      rw [if_neg hp] at h
      cases hrec : findFreeIdx k xs with
      | none => rw [hrec] at h; cases h
      | some j =>
        rw [hrec] at h
        simp only [Option.map_some', Option.some.injEq] at h
        rcases ih hrec with ⟨e, he, hek, het⟩
        exact ⟨e, by rw [← h]; simpa using he, hek, het⟩

theorem findFreeIdx_none_iff {k : String} {l : List DataEntry} :
    findFreeIdx k l = none ↔ ∀ e ∈ l, ¬ (e.key = k ∧ e.type = "freeform") := by
  induction l with
  | nil => simp [findFreeIdx]
  | cons x xs ih =>
    by_cases hp : (x.key = k && x.type = "freeform") = true
    · simp only [findFreeIdx, if_pos hp]
      simp only [Bool.and_eq_true, decide_eq_true_eq] at hp
      constructor
      · intro h; cases h
      · intro h
        exact absurd hp (h x (List.mem_cons_self x xs))
    · simp only [findFreeIdx, if_neg hp]
      have hx : ¬ (x.key = k ∧ x.type = "freeform") := by
        intro hc
        exact hp (by simp [hc.1, hc.2])
      constructor
      · intro h y hy
        rcases List.mem_cons.mp hy with h1 | h2
        · rw [h1]; exact hx
        · cases hrec : findFreeIdx k xs with
          | none => exact ih.mp hrec y h2
          | some j => rw [hrec] at h; cases h
      · intro h
        rw [ih.mpr (fun y hy => h y (List.mem_cons_of_mem x hy))]
        rfl

theorem countP_updAt {α : Type} (q : α → Bool) (l : List α) (i : Nat)
    (f : α → α) (old : α) (h : l[i]? = some old) (hq : q (f old) = q old) :
    (updAt i f l).countP q = l.countP q := by
  induction l generalizing i with
  | nil => cases h
  | cons x xs ih =>
    cases i with
    | zero =>
      simp only [List.getElem?_cons_zero, Option.some.injEq] at h
      subst h
      simp [updAt, List.countP_cons, hq]
    | succ n =>
      simp only [List.getElem?_cons_succ] at h
      simp [updAt, List.countP_cons, ih n h]

theorem map_updAt_of_pres {α β : Type} (g : α → β) (f : α → α) (l : List α)
    (i : Nat) (hg : ∀ x, g (f x) = g x) :
    (updAt i f l).map g = l.map g := by
  induction l generalizing i with
  | nil => simp [updAt]
  | cons x xs ih =>
    cases i with
    | zero => simp [updAt, hg]
    | succ n => simp [updAt, ih]

theorem mem_of_getElem? {α : Type} {l : List α} {i : Nat} {a : α}
    (h : l[i]? = some a) : a ∈ l := by
  induction l generalizing i with
  | nil => cases h
  | cons x xs ih =>
    cases i with
    | zero =>
      simp only [List.getElem?_cons_zero, Option.some.injEq] at h
      exact h ▸ List.mem_cons_self x xs
    | succ n =>
      simp only [List.getElem?_cons_succ] at h
      exact List.mem_cons_of_mem x (ih h)

theorem mem_updAt_of_getElem {α : Type} (i : Nat) (f : α → α) (l : List α)
    (old : α) (h : l[i]? = some old) :
    ∀ e ∈ updAt i f l, e ∈ l ∨ e = f old := by
  induction l generalizing i with
  | nil => cases h
  | cons x xs ih =>
    cases i with
    | zero =>
      simp only [List.getElem?_cons_zero, Option.some.injEq] at h
      subst h
      intro e he
      rcases List.mem_cons.mp he with h1 | h2
      · exact Or.inr h1
      · exact Or.inl (List.mem_cons_of_mem x h2)
    | succ n =>
      simp only [List.getElem?_cons_succ] at h
      intro e he
      simp only [updAt] at he
      rcases List.mem_cons.mp he with h1 | h2
      · exact Or.inl (h1 ▸ List.mem_cons_self x xs)
      · rcases ih n h e h2 with h3 | h4
        · exact Or.inl (List.mem_cons_of_mem x h3)
        · exact Or.inr h4

theorem freeCount_eq_countP (k : String) (data : List DataEntry) :
    freeCount k data = data.countP (fun e => e.key = k && e.type = "freeform") := by
  unfold freeCount
  exact (List.countP_eq_length_filter _ _).symm

theorem mergeStep_freeCount_le (full : List DataEntry) (p : DataEntry)
    (k : String) (h : freeCount k full ≤ 1) :
    freeCount k (mergeStep full p) ≤ 1 := by
  rw [freeCount_eq_countP] at h ⊢
  unfold mergeStep
  by_cases hp : p.type = "freeform"
  · rw [if_pos hp]
    cases hidx : findFreeIdx p.key full with
    | some i =>
      rcases findFreeIdx_some hidx with ⟨old, hold, holdk, holdt⟩
      rw [countP_updAt _ full i _ old hold (by simp [holdk, holdt, hp])]
      exact h
    | none =>
      rw [List.countP_append]
      by_cases hpk : p.key = k
      · have hzero : full.countP (fun e => e.key = k && e.type = "freeform") = 0 := by
          apply List.countP_eq_zero.mpr
          intro e he
          have := findFreeIdx_none_iff.mp hidx e he
          simp only [Bool.and_eq_true, decide_eq_true_eq]
          intro hc
          exact this ⟨by rw [hc.1, hpk], hc.2⟩
        rw [hzero]
        simp only [List.countP_cons, List.countP_nil]
        split <;> omega
      · simp [List.countP_cons, hpk]
        exact h
  · rw [if_neg hp]
    rw [List.countP_append]
    simp [List.countP_cons, hp]
    exact h

theorem mergeData_freeCount_le (turn : List DataEntry) :
    ∀ full k, freeCount k full ≤ 1 → freeCount k (mergeData full turn) ≤ 1 := by
  induction turn with
  | nil => intro full k h; exact h
  | cons p rest ih =>
    intro full k h
    exact ih (mergeStep full p) k (mergeStep_freeCount_le full p k h)

theorem uniqFree_iff (data : List DataEntry) :
    uniqFree data ↔ ∀ k, freeCount k data ≤ 1 := by
  constructor
  · intro h k
    by_cases hk : k ∈ data.map (·.key)
    · exact h k hk
    · have hzero : freeCount k data = 0 := by
        unfold freeCount
        rw [List.length_eq_zero]
        apply List.filter_eq_nil_iff.mpr
        intro e he hc
        simp only [Bool.and_eq_true, decide_eq_true_eq] at hc
        exact hk (List.mem_map.mpr ⟨e, he, hc.1⟩)
      rw [hzero]
      exact Nat.zero_le 1
  · intro h k _
    exact h k

theorem applyMerges_uniq (inps : List MergeInput) :
    ∀ st : Report × Nat, (∀ k, freeCount k st.1.data ≤ 1) →
      ∀ k, freeCount k (applyMerges st inps).1.data ≤ 1 := by
  induction inps with
  | nil => intro st h k; exact h k
  | cons inp rest ih =>
    intro st h k
    apply ih (applyMerge st inp)
    intro k2
    exact mergeData_freeCount_le _ _ k2 (h k2)

/-- C2: every sequence of addClientMessage merges preserves the at most one
freeform entry per key invariant at every point, and a freeform write for a
key that already has a freeform entry replaces that entry in place instead of
adding a new one. -/
theorem freeform_uniqueness (r : Report) (c : Nat) (inps : List MergeInput)
    (h : uniqFree r.data) :
    (∀ pre, pre <+: inps → uniqFree (applyMerges (r, c) pre).1.data)
    ∧ (∀ (full : List DataEntry) (p : DataEntry) (i : Nat),
        p.type = "freeform" → findFreeIdx p.key full = some i →
        mergeStep full p = updAt i (fun _ => p) full
        ∧ (mergeStep full p).length = full.length) := by
  constructor
  · intro pre _
    rw [uniqFree_iff]
    exact applyMerges_uniq pre (r, c) ((uniqFree_iff r.data).mp h)
  · intro full p i hp hi
    have hms : mergeStep full p = updAt i (fun _ => p) full := by
      unfold mergeStep
      rw [if_pos hp, hi]
    exact ⟨hms, by rw [hms]; exact length_updAt i _ full⟩

/-- Witness for C2: one merge that rewrites the freeform entry for key a and
adds an extracted entry for key b keeps freeform uniqueness, and the rewrite
is an in-place replacement. -/
theorem freeform_uniqueness_witness :
    uniqFree
      (applyMerges
        ({ conversation := [], data := [⟨1, "a", .vstr "x", "freeform"⟩] }, 10)
        [⟨"msg", [("a", .vstr "y"), ("b", .vstr "z")], "a"⟩]).1.data
    ∧ mergeStep [⟨1, "a", .vstr "x", "freeform"⟩] ⟨11, "a", .vstr "y", "freeform"⟩
        = updAt 0 (fun _ => ⟨11, "a", .vstr "y", "freeform"⟩)
            [⟨1, "a", .vstr "x", "freeform"⟩] := by
  have hthm := freeform_uniqueness
    { conversation := [], data := [⟨1, "a", .vstr "x", "freeform"⟩] } 10
    [⟨"msg", [("a", .vstr "y"), ("b", .vstr "z")], "a"⟩] (by unfold uniqFree; decide)
  exact ⟨hthm.1 _ ⟨[], by simp⟩,
    (hthm.2 [⟨1, "a", .vstr "x", "freeform"⟩] ⟨11, "a", .vstr "y", "freeform"⟩ 0
      rfl (by decide)).1⟩

/-- C10: a freeform write for a key that already has a freeform entry
replaces that entry at its current index in the data array with the new
entry, leaving the length and every other position unchanged. -/
theorem freeform_replace_frame (full : List DataEntry) (p : DataEntry)
    (i : Nat) (hp : p.type = "freeform") (hi : findFreeIdx p.key full = some i) :
    (mergeStep full p).length = full.length
    ∧ (mergeStep full p)[i]? = some p
    ∧ ∀ j, j ≠ i → (mergeStep full p)[j]? = full[j]? := by
  have hms : mergeStep full p = updAt i (fun _ => p) full := by
    unfold mergeStep
    rw [if_pos hp, hi]
  rcases findFreeIdx_some hi with ⟨old, hold, _, _⟩
  refine ⟨?_, ?_, ?_⟩
  · rw [hms]
    exact length_updAt i _ full
  · rw [hms, getElem?_updAt_self, hold]
    rfl
  · intro j hj
    rw [hms]
    exact getElem?_updAt_ne i j _ full hj

/-- Witness for C10: replacing the freeform entry for key a in a two-entry
data array keeps the length at two, puts the new entry at index zero, and
leaves index one unchanged. -/
theorem freeform_replace_frame_witness :
    (mergeStep
        [⟨1, "a", .vstr "x", "freeform"⟩, ⟨2, "b", .vstr "y", "extracted"⟩]
        ⟨5, "a", .vstr "z", "freeform"⟩).length = 2
    ∧ (mergeStep
        [⟨1, "a", .vstr "x", "freeform"⟩, ⟨2, "b", .vstr "y", "extracted"⟩]
        ⟨5, "a", .vstr "z", "freeform"⟩)[0]?
      = some ⟨5, "a", .vstr "z", "freeform"⟩
    ∧ (mergeStep
        [⟨1, "a", .vstr "x", "freeform"⟩, ⟨2, "b", .vstr "y", "extracted"⟩]
        ⟨5, "a", .vstr "z", "freeform"⟩)[1]?
      = some ⟨2, "b", .vstr "y", "extracted"⟩ := by
  have h := freeform_replace_frame
    [⟨1, "a", .vstr "x", "freeform"⟩, ⟨2, "b", .vstr "y", "extracted"⟩]
    ⟨5, "a", .vstr "z", "freeform"⟩ 0 rfl (by decide)
  exact ⟨h.1, h.2.1, by rw [h.2.2 1 (by decide)]; rfl⟩

theorem mem_mergeData (turn : List DataEntry) :
    ∀ full e, e ∈ mergeData full turn → e ∈ full ∨ e ∈ turn := by
  induction turn with
  | nil => intro full e h; exact Or.inl h
  | cons p rest ih =>
    intro full e h
    rcases ih (mergeStep full p) e h with h1 | h2
    · unfold mergeStep at h1
      by_cases hp : p.type = "freeform"
      · rw [if_pos hp] at h1
        cases hidx : findFreeIdx p.key full with
        | some i =>
          rw [hidx] at h1
          rcases findFreeIdx_some hidx with ⟨old, hold, _, _⟩
          rcases mem_updAt_of_getElem i _ full old hold e h1 with h3 | h4
          · exact Or.inl h3
          · exact Or.inr (by rw [h4]; exact List.mem_cons_self p rest)
        | none =>
          rw [hidx] at h1
          rcases List.mem_append.mp h1 with h3 | h4
          · exact Or.inl h3
          · simp only [List.mem_singleton] at h4
            exact Or.inr (by rw [h4]; exact List.mem_cons_self p rest)
      · rw [if_neg hp] at h1
        rcases List.mem_append.mp h1 with h3 | h4
        · exact Or.inl h3
        · simp only [List.mem_singleton] at h4
          exact Or.inr (by rw [h4]; exact List.mem_cons_self p rest)
    · exact Or.inr (List.mem_cons_of_mem p h2)

theorem buildTurn_values (L : List (String × JsVal)) (ck : String) :
    ∀ entries : List (String × JsVal), (∀ kv ∈ entries, kv ∈ L) →
      ∀ st : List DataEntry × Nat,
        (∀ e ∈ st.1, ∃ kv ∈ L, e.key = kv.1 ∧ e.value = JsVal.vstr (jsToString kv.2)) →
        ∀ e ∈ (entries.foldl (storeStep ck) st).1,
          ∃ kv ∈ L, e.key = kv.1 ∧ e.value = JsVal.vstr (jsToString kv.2) := by
  intro entries
  induction entries with
  | nil => intro _ st h e he; exact h e he
  | cons kv rest ih =>
    intro hsub st h
    apply ih (fun x hx => hsub x (List.mem_cons_of_mem kv hx)) (storeStep ck st kv)
    intro e he
    unfold storeStep at he
    by_cases hstore : storableVal kv.2 = true
    · rw [if_pos hstore] at he
      by_cases hck : kv.1 = ck
      · rw [if_pos hck] at he
        cases hidx : findFreeIdx kv.1 st.1 with
        | some i =>
          rw [hidx] at he
          rcases findFreeIdx_some hidx with ⟨old, hold, holdk, _⟩
          rcases mem_updAt_of_getElem i _ st.1 old hold e he with h1 | h2
          · exact h e h1
          · refine ⟨kv, hsub kv (List.mem_cons_self kv rest), ?_, ?_⟩
            · rw [h2]; exact holdk
            · rw [h2]
        | none =>
          rw [hidx] at he
          rcases List.mem_append.mp he with h1 | h2
          · exact h e h1
          · simp only [List.mem_singleton] at h2
            exact ⟨kv, hsub kv (List.mem_cons_self kv rest), by rw [h2], by rw [h2]⟩
      · rw [if_neg hck] at he
        rcases List.mem_append.mp he with h1 | h2
        · exact h e h1
        · simp only [List.mem_singleton] at h2
          exact ⟨kv, hsub kv (List.mem_cons_self kv rest), by rw [h2], by rw [h2]⟩
    · rw [if_neg hstore] at he
      exact h e he

/-- C9: every data entry written by one addClientMessage merge stores the
String rendering of the extracted value, so a merge on a report whose data
values are all strings yields a report whose data values are all strings. -/
theorem merge_stores_strings (r : Report) (c : Nat) (inp : MergeInput)
    (h : allStringValuesB r.data = true) :
    (∀ e ∈ (buildTurnData inp.extracted inp.currentKey (c + 1)).1,
        ∃ kv ∈ inp.extracted, e.key = kv.1 ∧ e.value = JsVal.vstr (jsToString kv.2))
    ∧ allStringValuesB (applyMerge (r, c) inp).1.data = true := by
  have hturn := buildTurn_values inp.extracted inp.currentKey inp.extracted
    (fun x hx => hx) ([], c + 1) (by intro e he; cases he)
  constructor
  · exact fun e he => hturn e he
  · unfold allStringValuesB
    rw [List.all_eq_true]
    intro e he
    simp only [applyMerge, mergeClientMessage] at he
    rcases mem_mergeData _ _ e he with h1 | h2
    · have := List.all_eq_true.mp (by exact h) e h1
      exact this
    · rcases hturn e h2 with ⟨kv, _, _, hv⟩
      rw [hv]

/-- Witness for C9: a merge storing a number, a string, an array and an
object leaves every value in the report a string. -/
theorem merge_stores_strings_witness :
    allStringValuesB [] = true
    ∧ allStringValuesB
        (applyMerge ({ conversation := [], data := [] }, 0)
          ⟨"m", [("a", .vnum 5), ("b", .vstr "s"), ("cur", .varr ["p", "q"]),
            ("o", .vobj ["x"])], "cur"⟩).1.data = true :=
  ⟨by decide,
    (merge_stores_strings { conversation := [], data := [] } 0
      ⟨"m", [("a", .vnum 5), ("b", .vstr "s"), ("cur", .varr ["p", "q"]),
        ("o", .vobj ["x"])], "cur"⟩ (by decide)).2⟩

theorem countP_congr_own {α : Type} (p q : α → Bool) :
    ∀ l : List α, (∀ a ∈ l, p a = q a) → l.countP p = l.countP q := by
  intro l
  induction l with
  | nil => intro _; rfl
  | cons x xs ih =>
    intro h
    rw [List.countP_cons, List.countP_cons, h x (List.mem_cons_self x xs),
      ih (fun a ha => h a (List.mem_cons_of_mem x ha))]

theorem extForKey_len (k : String) (data : List DataEntry) :
    (extForKey k data).length
      = data.countP (fun e => e.key = k && e.type = "extracted") := by
  unfold extForKey
  exact (List.countP_eq_length_filter _ _).symm

theorem mergeStep_extCount (full : List DataEntry) (p : DataEntry) (k : String) :
    (mergeStep full p).countP (fun e => e.key = k && e.type = "extracted")
      = full.countP (fun e => e.key = k && e.type = "extracted")
        + (if p.key = k ∧ p.type = "extracted" then 1 else 0) := by
  unfold mergeStep
  by_cases hp : p.type = "freeform"
  · have hcond : ¬ (p.key = k ∧ p.type = "extracted") := by
      intro hc
      rw [hp] at hc
      simp at hc
    rw [if_pos hp, if_neg hcond]
    cases hidx : findFreeIdx p.key full with
    | some i =>
      rcases findFreeIdx_some hidx with ⟨old, hold, _, holdt⟩
      rw [countP_updAt _ full i _ old hold (by simp [holdt, hp])]
      omega
    | none =>
      rw [List.countP_append]
      simp [List.countP_cons, hp]
  · rw [if_neg hp, List.countP_append]
    by_cases hc : p.key = k ∧ p.type = "extracted"
    · simp [List.countP_cons, hc.1, hc.2]
    · have : ¬ ((p.key = k) ∧ (p.type = "extracted")) := hc
      rw [if_neg hc]
      by_cases hk : p.key = k
      · have ht : ¬ (p.type = "extracted") := fun h2 => hc ⟨hk, h2⟩
        simp [List.countP_cons, hk, ht]
      · simp [List.countP_cons, hk]

theorem storeStep_extCount (ck : String) (st : List DataEntry × Nat)
    (kv : String × JsVal) (k : String) :
    (storeStep ck st kv).1.countP (fun e => e.key = k && e.type = "extracted")
      = st.1.countP (fun e => e.key = k && e.type = "extracted")
        + (if kv.1 = k ∧ ¬ (kv.1 = ck) ∧ storableVal kv.2 = true then 1 else 0) := by
  unfold storeStep
  by_cases hstore : storableVal kv.2 = true
  · rw [if_pos hstore]
    by_cases hck : kv.1 = ck
    · have hcond : ¬ (kv.1 = k ∧ ¬ (kv.1 = ck) ∧ storableVal kv.2 = true) :=
        fun hc => hc.2.1 hck
      rw [if_pos hck, if_neg hcond]
      cases hidx : findFreeIdx kv.1 st.1 with
      | some i =>
        rcases findFreeIdx_some hidx with ⟨old, hold, _, _⟩
        rw [countP_updAt _ st.1 i _ old hold rfl]
        omega
      | none =>
        rw [List.countP_append]
        simp [List.countP_cons]
    · rw [if_neg hck, List.countP_append]
      by_cases hk : kv.1 = k
      · have hcond : kv.1 = k ∧ ¬ (kv.1 = ck) ∧ storableVal kv.2 = true :=
          ⟨hk, hck, hstore⟩
        rw [if_pos hcond]
        simp [List.countP_cons, hk]
      · have hcond : ¬ (kv.1 = k ∧ ¬ (kv.1 = ck) ∧ storableVal kv.2 = true) :=
          fun hc => hk hc.1
        rw [if_neg hcond]
        simp [List.countP_cons, hk]
  · have hcond : ¬ (kv.1 = k ∧ ¬ (kv.1 = ck) ∧ storableVal kv.2 = true) :=
      fun hc => hstore hc.2.2
    rw [if_neg hstore, if_neg hcond]
    simp

theorem foldl_store_extCount (ck k : String) :
    ∀ (entries : List (String × JsVal)) (st : List DataEntry × Nat),
      (entries.foldl (storeStep ck) st).1.countP
          (fun e => e.key = k && e.type = "extracted")
        = st.1.countP (fun e => e.key = k && e.type = "extracted")
          + entries.countP
              (fun kv => kv.1 = k && !(kv.1 = ck) && storableVal kv.2) := by
  intro entries
  induction entries with
  | nil => intro st; simp
  | cons kv rest ih =>
    intro st
    rw [List.foldl_cons, ih (storeStep ck st kv), storeStep_extCount,
      List.countP_cons]
    have halign :
        (if kv.1 = k ∧ ¬ (kv.1 = ck) ∧ storableVal kv.2 = true then 1 else 0)
          = (if (decide (kv.1 = k) && !(decide (kv.1 = ck)) && storableVal kv.2)
              = true then 1 else 0) := by
      by_cases h1 : kv.1 = k
      · by_cases h2 : kv.1 = ck
        · have hno : ¬ (kv.1 = k ∧ ¬ (kv.1 = ck) ∧ storableVal kv.2 = true) :=
            fun hcc => hcc.2.1 h2
          rw [if_neg hno]
          have hkc : k = ck := h1.symm.trans h2
          simp [h1, h2, hkc]
        · by_cases h3 : storableVal kv.2 = true
          · rw [if_pos ⟨h1, h2, h3⟩]
            have hkc : ¬ (k = ck) := fun hcc => h2 (h1.trans hcc)
            simp [h1, h2, h3, hkc]
          · have hno : ¬ (kv.1 = k ∧ ¬ (kv.1 = ck) ∧ storableVal kv.2 = true) :=
              fun hcc => h3 hcc.2.2
            have h3f : storableVal kv.2 = false := by
              revert h3
              cases storableVal kv.2 <;> simp
            rw [if_neg hno]
            simp [h1, h2, h3f]
      · have hno : ¬ (kv.1 = k ∧ ¬ (kv.1 = ck) ∧ storableVal kv.2 = true) :=
          fun hcc => h1 hcc.1
        rw [if_neg hno]
        simp [h1]
    rw [halign]
    omega

theorem mergeData_extCount (k : String) :
    ∀ (turn full : List DataEntry),
      (mergeData full turn).countP (fun e => e.key = k && e.type = "extracted")
        = full.countP (fun e => e.key = k && e.type = "extracted")
          + turn.countP (fun e => e.key = k && e.type = "extracted") := by
  intro turn
  induction turn with
  | nil => intro full; simp [mergeData]
  | cons p rest ih =>
    intro full
    have hstep : mergeData full (p :: rest) = mergeData (mergeStep full p) rest := by
      rfl
    rw [hstep, ih (mergeStep full p), mergeStep_extCount, List.countP_cons]
    have halign :
        (if p.key = k ∧ p.type = "extracted" then 1 else 0)
          = (if (decide (p.key = k) && decide (p.type = "extracted")) = true
              then 1 else 0) := by
      by_cases hc : p.key = k ∧ p.type = "extracted"
      · rw [if_pos hc]; simp [hc.1, hc.2]
      · rw [if_neg hc]
        by_cases h1 : p.key = k
        · have h2 : ¬ (p.type = "extracted") := fun h => hc ⟨h1, h⟩
          simp [h1, h2]
        · simp [h1]
    rw [halign]
    omega

theorem nodup_updAt_const {α β : Type} (g : α → β) (l : List α) (i : Nat)
    (p : α) (hnd : (l.map g).Nodup) (hp : g p ∉ l.map g) :
    ((updAt i (fun _ => p) l).map g).Nodup
    ∧ ∀ b ∈ (updAt i (fun _ => p) l).map g, b ∈ l.map g ∨ b = g p := by
  induction l generalizing i with
  | nil => simp [updAt]
  | cons x xs ih =>
    rw [List.map_cons] at hnd
    have hndx := List.nodup_cons.mp hnd
    have hpx : g p ∉ xs.map g := fun hc => hp (by simp; exact Or.inr (by simpa using hc))
    have hpnex : g p ≠ g x := fun hc => hp (by simp [hc])
    cases i with
    | zero =>
      constructor
      · simp only [updAt, List.map_cons]
        exact List.nodup_cons.mpr ⟨hpx, hndx.2⟩
      · intro b hb
        simp only [updAt, List.map_cons, List.mem_cons] at hb
        rcases hb with h1 | h2
        · exact Or.inr h1
        · exact Or.inl (by simp; exact Or.inr (by simpa using h2))
    | succ n =>
      rcases ih n hndx.2 hpx with ⟨ih1, ih2⟩
      constructor
      · simp only [updAt, List.map_cons]
        refine List.nodup_cons.mpr ⟨?_, ih1⟩
        intro hc
        rcases ih2 (g x) hc with h1 | h2
        · exact hndx.1 h1
        · exact hpnex h2.symm
      · intro b hb
        simp only [updAt, List.map_cons, List.mem_cons] at hb
        rcases hb with h1 | h2
        · exact Or.inl (by simp [h1])
        · rcases ih2 b h2 with h3 | h4
          · exact Or.inl (by simp; exact Or.inr (by simpa using h3))
          · exact Or.inr h4

theorem storeStep_ids (ck : String) (kv : String × JsVal)
    (st : List DataEntry × Nat) (lo : Nat) (h1 : lo ≤ st.2)
    (h2 : ∀ e ∈ st.1, lo ≤ e.id ∧ e.id < st.2)
    (h3 : (st.1.map (·.id)).Nodup) :
    lo ≤ (storeStep ck st kv).2
    ∧ st.2 ≤ (storeStep ck st kv).2
    ∧ (∀ e ∈ (storeStep ck st kv).1,
        lo ≤ e.id ∧ e.id < (storeStep ck st kv).2)
    ∧ ((storeStep ck st kv).1.map (·.id)).Nodup := by
  have happend : ∀ ne : DataEntry, ne.id = st.2 →
      (∀ e ∈ st.1 ++ [ne], lo ≤ e.id ∧ e.id < st.2 + 1)
      ∧ (((st.1 ++ [ne]).map (·.id)).Nodup) := by
    intro ne hne
    constructor
    · intro e he
      rcases List.mem_append.mp he with hm | hm
      · rcases h2 e hm with ⟨ha, hb⟩
        exact ⟨ha, Nat.lt_succ_of_lt hb⟩
      · simp only [List.mem_singleton] at hm
        rw [hm, hne]
        exact ⟨h1, Nat.lt_succ_self _⟩
    · rw [List.map_append]
      simp only [List.map_cons, List.map_nil]
      rw [List.nodup_append]
      refine ⟨h3, List.nodup_singleton _, ?_⟩
      intro b hb hb2
      simp only [List.mem_singleton] at hb2
      rcases List.mem_map.mp hb with ⟨e, he, hei⟩
      rcases h2 e he with ⟨_, hlt⟩
      rw [hb2, hne] at hei
      omega
  unfold storeStep
  by_cases hstore : storableVal kv.2 = true
  · rw [if_pos hstore]
    by_cases hck : kv.1 = ck
    · rw [if_pos hck]
      cases hidx : findFreeIdx kv.1 st.1 with
      | some i =>
        rcases findFreeIdx_some hidx with ⟨old, hold, _, _⟩
        refine ⟨h1, Nat.le_refl _, ?_, ?_⟩
        · intro e he
          rcases mem_updAt_of_getElem i _ st.1 old hold e he with hm | hm
          · exact h2 e hm
          · rw [hm]
            exact h2 old (mem_of_getElem? hold)
        · exact (map_updAt_of_pres (fun d => d.id)
            (fun d => { d with value := JsVal.vstr (jsToString kv.2) }) st.1 i
            (fun x => rfl)).symm ▸ h3
      | none =>
        rcases happend ⟨st.2, kv.1, JsVal.vstr (jsToString kv.2), "freeform"⟩ rfl
          with ⟨ha, hb⟩
        exact ⟨Nat.le_succ_of_le h1, Nat.le_succ _, ha, hb⟩
    · rw [if_neg hck]
      rcases happend ⟨st.2, kv.1, JsVal.vstr (jsToString kv.2), "extracted"⟩ rfl
        with ⟨ha, hb⟩
      exact ⟨Nat.le_succ_of_le h1, Nat.le_succ _, ha, hb⟩
  · rw [if_neg hstore]
    exact ⟨h1, Nat.le_refl _, h2, h3⟩

theorem foldl_store_ids (ck : String) (lo : Nat) :
    ∀ (entries : List (String × JsVal)) (st : List DataEntry × Nat),
      lo ≤ st.2 → (∀ e ∈ st.1, lo ≤ e.id ∧ e.id < st.2) →
      (st.1.map (·.id)).Nodup →
      lo ≤ (entries.foldl (storeStep ck) st).2
      ∧ st.2 ≤ (entries.foldl (storeStep ck) st).2
      ∧ (∀ e ∈ (entries.foldl (storeStep ck) st).1,
          lo ≤ e.id ∧ e.id < (entries.foldl (storeStep ck) st).2)
      ∧ ((entries.foldl (storeStep ck) st).1.map (·.id)).Nodup := by
  intro entries
  induction entries with
  | nil => intro st ha hb hc; exact ⟨ha, Nat.le_refl _, hb, hc⟩
  | cons kv rest ih =>
    intro st ha hb hc
    rcases storeStep_ids ck kv st lo ha hb hc with ⟨s1, s2, s3, s4⟩
    rcases ih (storeStep ck st kv) s1 s3 s4 with ⟨t1, t2, t3, t4⟩
    exact ⟨t1, Nat.le_trans s2 t2, t3, t4⟩

theorem mergeData_ids (c2 : Nat) :
    ∀ (turn full : List DataEntry),
      (full.map (·.id)).Nodup →
      (∀ e ∈ full, e.id ∉ turn.map (·.id)) →
      ((turn.map (·.id)).Nodup) →
      (∀ e ∈ full, e.id < c2) →
      (∀ e ∈ turn, e.id < c2) →
      ((mergeData full turn).map (·.id)).Nodup
      ∧ ∀ e ∈ mergeData full turn, e.id < c2 := by
  intro turn
  induction turn with
  | nil => intro full h1 _ _ h4 _; exact ⟨h1, h4⟩
  | cons p rest ih =>
    intro full h1 h2 h3 h4 h5
    rw [List.map_cons] at h3
    have h3' := List.nodup_cons.mp h3
    have hpfull : p.id ∉ full.map (·.id) := by
      intro hc
      rcases List.mem_map.mp hc with ⟨e, he, hei⟩
      apply h2 e he
      rw [List.map_cons, hei]
      exact List.mem_cons_self _ _
    have hstep : ((mergeStep full p).map (·.id)).Nodup
        ∧ ∀ b ∈ (mergeStep full p).map (·.id), b ∈ full.map (·.id) ∨ b = p.id := by
      have happ : (((full ++ [p]).map (·.id)).Nodup)
          ∧ ∀ b ∈ (full ++ [p]).map (·.id), b ∈ full.map (·.id) ∨ b = p.id := by
        constructor
        · rw [List.map_append]
          simp only [List.map_cons, List.map_nil]
          rw [List.nodup_append]
          refine ⟨h1, List.nodup_singleton _, ?_⟩
          intro b hb hb2
          simp only [List.mem_singleton] at hb2
          rw [hb2] at hb
          exact hpfull hb
        · intro b hb
          rw [List.map_append] at hb
          rcases List.mem_append.mp hb with hm | hm
          · exact Or.inl hm
          · simp only [List.map_cons, List.map_nil, List.mem_singleton] at hm
            exact Or.inr hm
      unfold mergeStep
      by_cases hp : p.type = "freeform"
      · rw [if_pos hp]
        cases hidx : findFreeIdx p.key full with
        | some i => exact nodup_updAt_const (fun d => d.id) full i p h1 hpfull
        | none => exact happ
      · rw [if_neg hp]
        exact happ
    apply ih (mergeStep full p)
    · exact hstep.1
    · intro e he hc
      rcases hstep.2 e.id (List.mem_map.mpr ⟨e, he, rfl⟩) with h6 | h7
      · rcases List.mem_map.mp h6 with ⟨e2, he2, hei⟩
        apply h2 e2 he2
        rw [List.map_cons, hei]
        exact List.mem_cons_of_mem _ hc
      · rw [h7] at hc
        exact h3'.1 hc
    · exact h3'.2
    · intro e he
      rcases hstep.2 e.id (List.mem_map.mpr ⟨e, he, rfl⟩) with h6 | h7
      · rcases List.mem_map.mp h6 with ⟨e2, he2, hei⟩
        rw [← hei]
        exact h4 e2 he2
      · rw [h7]
        exact h5 p (List.mem_cons_self _ _)
    · intro e he
      exact h5 e (List.mem_cons_of_mem p he)

theorem applyMerge_ids (r : Report) (c : Nat) (inp : MergeInput)
    (hids : idsBelow r.data c) (hnd : (r.data.map (·.id)).Nodup) :
    c ≤ (applyMerge (r, c) inp).2
    ∧ idsBelow (applyMerge (r, c) inp).1.data (applyMerge (r, c) inp).2
    ∧ ((applyMerge (r, c) inp).1.data.map (·.id)).Nodup := by
  have hturn := foldl_store_ids inp.currentKey (c + 1) inp.extracted
    ([], c + 1) (Nat.le_refl _) (by intro e he; cases he) (by simp)
  rcases hturn with ⟨t1, t2, t3, t4⟩
  have hdisj : ∀ e ∈ r.data,
      e.id ∉ (inp.extracted.foldl (storeStep inp.currentKey) ([], c + 1)).1.map (·.id) := by
    intro e he hc
    rcases List.mem_map.mp hc with ⟨e2, he2, hei⟩
    rcases t3 e2 he2 with ⟨hge, _⟩
    have := hids e he
    omega
  have hfull_lt : ∀ e ∈ r.data,
      e.id < (inp.extracted.foldl (storeStep inp.currentKey) ([], c + 1)).2 := by
    intro e he
    have := hids e he
    omega
  have hturn_lt : ∀ e ∈ (inp.extracted.foldl (storeStep inp.currentKey) ([], c + 1)).1,
      e.id < (inp.extracted.foldl (storeStep inp.currentKey) ([], c + 1)).2 := by
    intro e he
    exact (t3 e he).2
  rcases mergeData_ids (inp.extracted.foldl (storeStep inp.currentKey) ([], c + 1)).2
    (inp.extracted.foldl (storeStep inp.currentKey) ([], c + 1)).1 r.data
    hnd hdisj t4 hfull_lt hturn_lt with ⟨m1, m2⟩
  have hceq : (applyMerge (r, c) inp).2
      = (inp.extracted.foldl (storeStep inp.currentKey) ([], c + 1)).2 := rfl
  refine ⟨by rw [hceq]; omega, ?_, ?_⟩
  · intro e he
    exact m2 e he
  · exact m1

theorem applyMerge_extCount (r : Report) (c : Nat) (inp : MergeInput)
    (k : String) (hone : storesOneExtractedFor k inp = true) :
    (applyMerge (r, c) inp).1.data.countP
        (fun e => e.key = k && e.type = "extracted")
      = r.data.countP (fun e => e.key = k && e.type = "extracted") + 1 := by
  have hcnt := mergeData_extCount k
    (inp.extracted.foldl (storeStep inp.currentKey) ([], c + 1)).1 r.data
  have hbuild := foldl_store_extCount inp.currentKey k inp.extracted ([], c + 1)
  unfold storesOneExtractedFor at hone
  simp only [Bool.and_eq_true, Bool.not_eq_true', decide_eq_true_eq,
    decide_eq_false_iff_not] at hone
  have hkck : ¬ (k = inp.currentKey) := hone.1
  have hcnt1 : inp.extracted.countP
      (fun kv => kv.1 = k && !(kv.1 = inp.currentKey) && storableVal kv.2) = 1 := by
    have hcongr := countP_congr_own
      (fun kv : String × JsVal => decide (kv.1 = k) && !(decide (kv.1 = inp.currentKey)) && storableVal kv.2)
      (fun kv : String × JsVal => decide (kv.1 = k) && storableVal kv.2)
      inp.extracted ?_
    · rw [hcongr]
      rcases hone with ⟨_, hlen⟩
      rw [← List.countP_eq_length_filter] at hlen
      exact hlen
    · intro kv _
      show (decide (kv.1 = k) && !(decide (kv.1 = inp.currentKey)) && storableVal kv.2)
          = (decide (kv.1 = k) && storableVal kv.2)
      by_cases h1 : kv.1 = k
      · have h2 : ¬ (kv.1 = inp.currentKey) := fun hc => hkck (h1.symm.trans hc)
        rw [decide_eq_true h1, decide_eq_false h2]
        simp
      · rw [decide_eq_false h1]
        simp
  calc (applyMerge (r, c) inp).1.data.countP
        (fun e => e.key = k && e.type = "extracted")
      = r.data.countP (fun e => e.key = k && e.type = "extracted")
          + (inp.extracted.foldl (storeStep inp.currentKey) ([], c + 1)).1.countP
              (fun e => e.key = k && e.type = "extracted") := hcnt
    _ = r.data.countP (fun e => e.key = k && e.type = "extracted") + 1 := by
        rw [hbuild]
        simp [hcnt1]

/-- C7: merges never collapse extracted entries: a sequence of N merges that
each store one extracted value for key k adds exactly N extracted entries for
k to the data array, and all entry ids remain pairwise distinct. -/
theorem extracted_accumulation (inps : List MergeInput) (k : String) :
    ∀ (r : Report) (c : Nat),
      (∀ inp ∈ inps, storesOneExtractedFor k inp = true) →
      idsBelow r.data c → ((r.data.map (·.id)).Nodup) →
      (extForKey k (applyMerges (r, c) inps).1.data).length
          = (extForKey k r.data).length + inps.length
      ∧ (((applyMerges (r, c) inps).1.data.map (·.id)).Nodup) := by
  induction inps with
  | nil =>
    intro r c _ _ hnd
    exact ⟨by simp [applyMerges], hnd⟩
  | cons inp rest ih =>
    intro r c hone hids hnd
    rcases applyMerge_ids r c inp hids hnd with ⟨_, hids2, hnd2⟩
    have hstep : applyMerges (r, c) (inp :: rest)
        = applyMerges ((applyMerge (r, c) inp).1, (applyMerge (r, c) inp).2) rest :=
      rfl
    rw [hstep]
    rcases ih (applyMerge (r, c) inp).1 (applyMerge (r, c) inp).2
      (fun i hi => hone i (List.mem_cons_of_mem inp hi)) hids2 hnd2 with ⟨ihc, ihn⟩
    refine ⟨?_, ihn⟩
    rw [ihc]
    have hcnt := applyMerge_extCount r c inp k (hone inp (List.mem_cons_self inp rest))
    have hlen : (inp :: rest).length = rest.length + 1 := rfl
    rw [extForKey_len, extForKey_len, hcnt, hlen]
    omega

/-- Witness for C7: two merges that each store one extracted value for key b
leave two extracted entries for b, with pairwise distinct ids. -/
theorem extracted_accumulation_witness :
    (extForKey "b"
        (applyMerges ({ conversation := [], data := [] }, 0)
          [⟨"m1", [("a", .vstr "x"), ("b", .vstr "y")], "a"⟩,
            ⟨"m2", [("b", .vstr "w")], "a"⟩]).1.data).length = 2
    ∧ (((applyMerges ({ conversation := [], data := [] }, 0)
          [⟨"m1", [("a", .vstr "x"), ("b", .vstr "y")], "a"⟩,
            ⟨"m2", [("b", .vstr "w")], "a"⟩]).1.data.map (·.id)).Nodup) := by
  have h := extracted_accumulation
    [⟨"m1", [("a", .vstr "x"), ("b", .vstr "y")], "a"⟩,
      ⟨"m2", [("b", .vstr "w")], "a"⟩] "b"
    { conversation := [], data := [] } 0
    (by decide) (by intro e he; cases he) (by simp)
  exact ⟨h.1, h.2⟩

/-! Lemmas on the Dummy next-question decision. -/

theorem scan_aux_some (qs : List QuestionCtx) :
    ∀ (x : QuestionCtx) (p : Option QuestionCtx),
      (qs.foldl (fun np q =>
        (if !hasDataQ q && np.1.isNone then some q else np.1,
         if hasDataQ q then some q else np.2)) (some x, p)).1 = some x := by
  induction qs with
  | nil => intro x p; rfl
  | cons q rest ih =>
    intro x p
    rw [List.foldl_cons]
    have hstep : (if !hasDataQ q && (some x : Option QuestionCtx).isNone
        then some q else some x) = some x := by
      simp
    simp only [hstep]
    exact ih x _

theorem scan_aux_none (qs : List QuestionCtx) :
    ∀ p, (qs.foldl (fun np q =>
        (if !hasDataQ q && np.1.isNone then some q else np.1,
         if hasDataQ q then some q else np.2)) (none, p)).1
      = qs.find? (fun q => !(hasDataQ q)) := by
  induction qs with
  | nil => intro p; rfl
  | cons q rest ih =>
    intro p
    rw [List.foldl_cons, List.find?_cons]
    by_cases hq : hasDataQ q = true
    · have h1 : (!hasDataQ q) = false := by rw [hq]; rfl
      simp only [h1, Bool.false_and, if_false]
      exact ih _
    · have h1 : (!hasDataQ q) = true := by
        revert hq; cases hasDataQ q <;> simp
      simp only [h1, Option.isNone_none, Bool.true_and, if_true]
      exact scan_aux_some rest q _

theorem scanNextPrev_fst (qs : List QuestionCtx) :
    (scanNextPrev qs).1 = qs.find? (fun q => !(hasDataQ q)) := by
  unfold scanNextPrev
  exact scan_aux_none qs none

theorem decideNextQuestion_eq_none (ctx : List QuestionCtx)
    (h : (scanNextPrev ctx).1 = none) :
    decideNextQuestion ctx =
      { questionId := none,
        message :=
          match ctx.getLast? with
          | some lq =>
            if lq.final then lq.successTemplate else "Thank you! Survey completed."
          | none => "Thank you! Survey completed.",
        completed := true } := by
  simp only [decideNextQuestion]
  rw [h]

theorem decideNextQuestion_eq_some (ctx : List QuestionCtx) (nq : QuestionCtx)
    (h : (scanNextPrev ctx).1 = some nq) :
    decideNextQuestion ctx =
      { questionId := some nq.id,
        message :=
          match (scanNextPrev ctx).2 with
          | some pq =>
            if pq.successTemplate = "" then nq.questionTemplate
            else pq.successTemplate ++ "\n\n" ++ nq.questionTemplate
          | none => nq.questionTemplate,
        completed := false } := by
  simp only [decideNextQuestion]
  rw [h]

theorem decideNext_completed_qid (ctx : List QuestionCtx)
    (h : (decideNextQuestion ctx).completed = true) :
    (decideNextQuestion ctx).questionId = none := by
  cases hfind : (scanNextPrev ctx).1 with
  | none => rw [decideNextQuestion_eq_none ctx hfind]
  | some nq =>
    rw [decideNextQuestion_eq_some ctx nq hfind] at h
    cases h

/-- C4 amended: the Dummy decision is completed exactly when every question
in the list has collected data; in the completed case the message is the
successTemplate of the last question of the list when that last question is
final, and the generic thank-you string otherwise. -/
theorem decideNext_completed_characterisation (qs : List QuestionCtx) :
    ((decideNextQuestion qs).completed = true ↔ ∀ q ∈ qs, hasDataQ q = true)
    ∧ ((decideNextQuestion qs).completed = true →
        ∀ lq, qs.getLast? = some lq →
          (decideNextQuestion qs).message
            = (if lq.final then lq.successTemplate
                else "Thank you! Survey completed.")) := by
  constructor
  · cases hfind : (scanNextPrev qs).1 with
    | none =>
      have hnone := scanNextPrev_fst qs ▸ hfind
      have hall : ∀ q ∈ qs, hasDataQ q = true := by
        intro q hq
        have := List.find?_eq_none.mp hnone q hq
        revert this
        cases hasDataQ q <;> simp
      constructor
      · intro _; exact hall
      · intro _
        rw [decideNextQuestion_eq_none qs hfind]
    | some nq =>
      have hsome := scanNextPrev_fst qs ▸ hfind
      have hmem := List.mem_of_find?_eq_some hsome
      have hprop := List.find?_some hsome
      have hnd : hasDataQ nq = false := by
        revert hprop
        cases hasDataQ nq <;> simp
      constructor
      · intro hcomp
        rw [decideNextQuestion_eq_some qs nq hfind] at hcomp
        cases hcomp
      · intro h
        exact absurd (h nq hmem) (by rw [hnd]; simp)
  · intro hcomp lq hlast
    cases hfind : (scanNextPrev qs).1 with
    | none =>
      rw [decideNextQuestion_eq_none qs hfind]
      simp only [hlast]
    | some nq =>
      rw [decideNextQuestion_eq_some qs nq hfind] at hcomp
      cases hcomp

/-- Counterexample for C4: with question a unanswered and the final question
b already answered, the claimed condition (an answered final question
exists) holds, yet the decision is not completed: it asks question a. -/
theorem decideNext_final_counterexample :
    (decideNextQuestion (buildQuestionsContext
        [⟨1, 1, 1, "a", "freeform", "Q1", "S1", "F1", false⟩,
          ⟨2, 1, 2, "b", "freeform", "Q2", "S2", "F2", true⟩]
        [⟨7, "b", .vstr "done", "freeform"⟩])).completed = false
    ∧ (∃ qt ∈ [(⟨1, 1, 1, "a", "freeform", "Q1", "S1", "F1", false⟩ : QuestionTemplate),
          ⟨2, 1, 2, "b", "freeform", "Q2", "S2", "F2", true⟩],
        qt.final = true ∧ specAnswered [⟨7, "b", .vstr "done", "freeform"⟩] qt.dataKey)
    ∧ (decideNextQuestion (buildQuestionsContext
        [⟨1, 1, 1, "a", "freeform", "Q1", "S1", "F1", false⟩,
          ⟨2, 1, 2, "b", "freeform", "Q2", "S2", "F2", true⟩]
        [⟨7, "b", .vstr "done", "freeform"⟩])).questionId = some 1 := by
  refine ⟨by decide, ?_, by decide⟩
  refine ⟨⟨2, 1, 2, "b", "freeform", "Q2", "S2", "F2", true⟩, by decide, rfl, ?_⟩
  exact ⟨⟨7, "b", .vstr "done", "freeform"⟩, by decide, rfl, Or.inl ⟨by decide, rfl⟩⟩

/-- Witness for C4 amended: with both questions carrying data and a final
last question, the decision is completed with the successTemplate of the
last question as message. -/
theorem decideNext_completed_characterisation_witness :
    (∀ q ∈ [(⟨1, 1, "a", "Q1", "S1", "F1", "freeform", false,
          some [⟨3, "a", .vstr "x", "freeform"⟩]⟩ : QuestionCtx),
        ⟨2, 2, "b", "Q2", "S2", "F2", "freeform", true,
          some [⟨4, "b", .vstr "y", "freeform"⟩]⟩], hasDataQ q = true)
    ∧ (decideNextQuestion
        [⟨1, 1, "a", "Q1", "S1", "F1", "freeform", false,
            some [⟨3, "a", .vstr "x", "freeform"⟩]⟩,
          ⟨2, 2, "b", "Q2", "S2", "F2", "freeform", true,
            some [⟨4, "b", .vstr "y", "freeform"⟩]⟩]).completed = true
    ∧ (decideNextQuestion
        [⟨1, 1, "a", "Q1", "S1", "F1", "freeform", false,
            some [⟨3, "a", .vstr "x", "freeform"⟩]⟩,
          ⟨2, 2, "b", "Q2", "S2", "F2", "freeform", true,
            some [⟨4, "b", .vstr "y", "freeform"⟩]⟩]).message = "S2" := by
  have h := decideNext_completed_characterisation
    [⟨1, 1, "a", "Q1", "S1", "F1", "freeform", false,
        some [⟨3, "a", .vstr "x", "freeform"⟩]⟩,
      ⟨2, 2, "b", "Q2", "S2", "F2", "freeform", true,
        some [⟨4, "b", .vstr "y", "freeform"⟩]⟩]
  have hcomp := h.1.mpr (by decide)
  refine ⟨by decide, hcomp, ?_⟩
  have hmsg := h.2 hcomp
    ⟨2, 2, "b", "Q2", "S2", "F2", "freeform", true,
      some [⟨4, "b", .vstr "y", "freeform"⟩]⟩ rfl
  simpa using hmsg

theorem mem_insertByOrder (q : QuestionTemplate) :
    ∀ (l : List QuestionTemplate) (x : QuestionTemplate),
      x ∈ insertByOrder q l → x = q ∨ x ∈ l := by
  intro l
  induction l with
  | nil =>
    intro x hx
    simp only [insertByOrder, List.mem_singleton] at hx
    exact Or.inl hx
  | cons y ys ih =>
    intro x hx
    unfold insertByOrder at hx
    by_cases hc : q.order ≤ y.order
    · rw [if_pos hc] at hx
      rcases List.mem_cons.mp hx with h1 | h2
      · exact Or.inl h1
      · exact Or.inr h2
    · rw [if_neg hc] at hx
      rcases List.mem_cons.mp hx with h1 | h2
      · exact Or.inr (by rw [h1]; exact List.mem_cons_self y ys)
      · rcases ih x h2 with h3 | h4
        · exact Or.inl h3
        · exact Or.inr (List.mem_cons_of_mem y h4)

theorem mem_sortByOrder (qs : List QuestionTemplate) :
    ∀ x ∈ sortByOrder qs, x ∈ qs := by
  induction qs with
  | nil => intro x hx; cases hx
  | cons q rest ih =>
    intro x hx
    unfold sortByOrder at hx
    rw [List.foldr_cons] at hx
    rcases mem_insertByOrder q _ x hx with h1 | h2
    · exact h1 ▸ List.mem_cons_self q rest
    · exact List.mem_cons_of_mem q (ih x h2)

/-- C5: the decision over the question contexts built from a report never
returns the id of a question whose dataKey is answered in the report, and
when a decideAndAskNextQuestion step reports completed, a second step on the
resulting state reports completed again. -/
theorem decideNext_skips_answered (qts : List QuestionTemplate) (r : Report)
    (session : SessionState) (c : Nat) :
    (∀ i, (decideNextQuestion (buildQuestionsContext qts r.data)).questionId = some i →
      ∃ qt ∈ qts, qt.id = i ∧ ¬ specAnswered r.data qt.dataKey)
    ∧ ((decideAndAskStep qts r session c).1.completed = true →
        (decideAndAskStep qts
          (decideAndAskStep qts r session c).2.1
          (decideAndAskStep qts r session c).2.2.1
          (decideAndAskStep qts r session c).2.2.2).1.completed = true) := by
  constructor
  · intro i h
    cases hfind : (scanNextPrev (buildQuestionsContext qts r.data)).1 with
    | none =>
      rw [decideNextQuestion_eq_none _ hfind] at h
      cases h
    | some nq =>
      rw [decideNextQuestion_eq_some _ nq hfind] at h
      simp only [Option.some.injEq] at h
      have hsome := scanNextPrev_fst (buildQuestionsContext qts r.data) ▸ hfind
      have hmem := List.mem_of_find?_eq_some hsome
      have hprop := List.find?_some hsome
      have hnd : hasDataQ nq = false := by
        revert hprop
        cases hasDataQ nq <;> simp
      unfold buildQuestionsContext at hmem
      rcases List.mem_map.mp hmem with ⟨qt, hqt, hbuild⟩
      refine ⟨qt, mem_sortByOrder qts qt hqt, ?_, ?_⟩
      · rw [← h, ← hbuild]
      · intro hans
        rcases hans with ⟨e, he, hek, _⟩
        have hfilter : e ∈ r.data.filter (fun d => decide (d.key = qt.dataKey)) :=
          List.mem_filter.mpr ⟨he, by simp [hek]⟩
        have hlen : (r.data.filter (fun d => decide (d.key = qt.dataKey))).length > 0 :=
          List.length_pos.mpr (fun hnil => by rw [hnil] at hfilter; cases hfilter)
        have hcd : nq.collectedData
            = some (r.data.filter (fun d => decide (d.key = qt.dataKey))) := by
          rw [← hbuild]
          simp only [if_pos hlen]
        unfold hasDataQ at hnd
        rw [hcd] at hnd
        simp only [decide_eq_false_iff_not] at hnd
        exact hnd hlen
  · intro hcomp
    have hcompd : (decideNextQuestion (buildQuestionsContext qts r.data)).completed
        = true := hcomp
    have hqid := decideNext_completed_qid _ hcompd
    have h21 : (decideAndAskStep qts r session c).2.1 = r := by
      simp only [decideAndAskStep]
      rw [hqid]
    show (decideNextQuestion (buildQuestionsContext qts
      ((decideAndAskStep qts r session c).2.1).data)).completed = true
    rw [h21]
    exact hcompd

/-- Witness for C5: with only key b answered the decision returns question
one, whose dataKey a is unanswered; with both keys answered a completed step
stays completed on a repeated step. -/
theorem decideNext_skips_answered_witness :
    (∃ qt ∈ [(⟨1, 1, 1, "a", "freeform", "Q1", "S1", "F1", false⟩ : QuestionTemplate),
        ⟨2, 1, 2, "b", "freeform", "Q2", "S2", "F2", true⟩],
      qt.id = 1 ∧ ¬ specAnswered [⟨7, "b", .vstr "done", "freeform"⟩] qt.dataKey)
    ∧ (decideAndAskStep
        [⟨1, 1, 1, "a", "freeform", "Q1", "S1", "F1", false⟩,
          ⟨2, 1, 2, "b", "freeform", "Q2", "S2", "F2", true⟩]
        { conversation := [],
          data := [⟨7, "b", .vstr "done", "freeform"⟩, ⟨8, "a", .vstr "x", "freeform"⟩] }
        ⟨1, false⟩ 0).1.completed = true
    ∧ (decideAndAskStep
        [⟨1, 1, 1, "a", "freeform", "Q1", "S1", "F1", false⟩,
          ⟨2, 1, 2, "b", "freeform", "Q2", "S2", "F2", true⟩]
        (decideAndAskStep
          [⟨1, 1, 1, "a", "freeform", "Q1", "S1", "F1", false⟩,
            ⟨2, 1, 2, "b", "freeform", "Q2", "S2", "F2", true⟩]
          { conversation := [],
            data := [⟨7, "b", .vstr "done", "freeform"⟩, ⟨8, "a", .vstr "x", "freeform"⟩] }
          ⟨1, false⟩ 0).2.1
        (decideAndAskStep
          [⟨1, 1, 1, "a", "freeform", "Q1", "S1", "F1", false⟩,
            ⟨2, 1, 2, "b", "freeform", "Q2", "S2", "F2", true⟩]
          { conversation := [],
            data := [⟨7, "b", .vstr "done", "freeform"⟩, ⟨8, "a", .vstr "x", "freeform"⟩] }
          ⟨1, false⟩ 0).2.2.1
        (decideAndAskStep
          [⟨1, 1, 1, "a", "freeform", "Q1", "S1", "F1", false⟩,
            ⟨2, 1, 2, "b", "freeform", "Q2", "S2", "F2", true⟩]
          { conversation := [],
            data := [⟨7, "b", .vstr "done", "freeform"⟩, ⟨8, "a", .vstr "x", "freeform"⟩] }
          ⟨1, false⟩ 0).2.2.2).1.completed = true := by
  refine ⟨(decideNext_skips_answered
      [⟨1, 1, 1, "a", "freeform", "Q1", "S1", "F1", false⟩,
        ⟨2, 1, 2, "b", "freeform", "Q2", "S2", "F2", true⟩]
      { conversation := [], data := [⟨7, "b", .vstr "done", "freeform"⟩] }
      ⟨1, false⟩ 0).1 1 (by decide), by decide, ?_⟩
  exact (decideNext_skips_answered
    [⟨1, 1, 1, "a", "freeform", "Q1", "S1", "F1", false⟩,
      ⟨2, 1, 2, "b", "freeform", "Q2", "S2", "F2", true⟩]
    { conversation := [],
      data := [⟨7, "b", .vstr "done", "freeform"⟩, ⟨8, "a", .vstr "x", "freeform"⟩] }
    ⟨1, false⟩ 0).2 (by decide)

theorem assoc_map_cond {α : Type} (f : α → α) (sid k : Nat)
    (rows : List (Nat × α)) :
    assoc k (rows.map (fun p => if p.1 = sid then (p.1, f p.2) else p))
      = (assoc k rows).map (fun r => if k = sid then f r else r) := by
  induction rows with
  | nil => simp [assoc]
  | cons p ps ih =>
    by_cases hp : p.1 = sid
    · by_cases hpk : p.1 = k
      · have hks : k = sid := hpk ▸ hp
        simp [assoc, hp, hpk, hks]
      · have hsk : ¬ (sid = k) := fun hc => hpk (hp.trans hc)
        simp [assoc, hp, hpk, ih, hsk]
    · by_cases hpk : p.1 = k
      · have hks : ¬ (k = sid) := fun hc => hp (hpk.trans hc)
        simp [assoc, hp, hpk, hks]
      · simp [assoc, hp, hpk, ih]

/-- C8: the completed flag of a session is one-way under every sequence of
the session-state operations of the service: once a session row carries
completed = true, it still carries completed = true after any sequence of
startSession, endSession and updateSessionOrder operations. -/
theorem session_completed_one_way (ops : List SessionOp) :
    ∀ (rows : List (Nat × SessionRec)) (nid sid : Nat) (sr : SessionRec),
      assoc sid rows = some sr → sr.state.completed = true →
      ∃ sr2, assoc sid (applySessionOps (rows, nid) ops).1 = some sr2
        ∧ sr2.state.completed = true := by
  induction ops with
  | nil => intro rows nid sid sr h hc; exact ⟨sr, h, hc⟩
  | cons op rest ih =>
    intro rows nid sid sr h hc
    have hstep : applySessionOps (rows, nid) (op :: rest)
        = applySessionOps (applySessionOp (rows, nid) op) rest := rfl
    rw [hstep]
    cases op with
    | start svy =>
      apply ih (startRows rows svy nid) (nid + 1) sid sr ?_ hc
      unfold startRows
      rw [assoc_append, h]
    | finish s2 =>
      apply ih (endSessionRows rows s2) nid sid
        (if sid = s2 then { sr with state := { sr.state with completed := true } }
          else sr) ?_ ?_
      · unfold endSessionRows
        rw [assoc_map_cond
          (fun rec => { rec with state := { rec.state with completed := true } })
          s2 sid rows, h]
        by_cases hs : sid = s2 <;> simp [hs]
      · by_cases hs : sid = s2 <;> simp [hs, hc]
    | setOrder s2 n =>
      apply ih (setOrderRows rows s2 n) nid sid
        (if sid = s2 then { sr with state := { sr.state with currentOrder := n } }
          else sr) ?_ ?_
      · unfold setOrderRows
        rw [assoc_map_cond
          (fun rec => { rec with state := { rec.state with currentOrder := n } })
          s2 sid rows, h]
        by_cases hs : sid = s2 <;> simp [hs]
      · by_cases hs : sid = s2 <;> simp [hs, hc]

/-- Witness for C8: a completed session stays completed across a start, two
order updates and an endSession on it. -/
theorem session_completed_one_way_witness :
    assoc 1 [(1, (⟨5, ⟨3, true⟩⟩ : SessionRec))] = some ⟨5, ⟨3, true⟩⟩
    ∧ ∃ sr2, assoc 1 (applySessionOps ([(1, (⟨5, ⟨3, true⟩⟩ : SessionRec))], 2)
        [.start 6, .setOrder 1 7, .finish 1, .setOrder 1 9]).1 = some sr2
        ∧ sr2.state.completed = true :=
  ⟨rfl, session_completed_one_way
    [.start 6, .setOrder 1 7, .finish 1, .setOrder 1 9]
    [(1, ⟨5, ⟨3, true⟩⟩)] 2 1 ⟨5, ⟨3, true⟩⟩ rfl rfl⟩

/-- C3 amended: when the extraction collaborator returns null, the respond
route replies with the combination of the current question failTemplate and
the current question, and leaves the whole stored state unchanged: the
report store is not modified at all (in particular the raw client message is
not recorded) and the session progression state is untouched. -/
theorem extraction_fail_branch (ai : AiModel) (w : World) (sid : Nat)
    (text : String) (session : SessionRec) (survey : SurveyRec)
    (qt : QuestionTemplate)
    (hs : assoc sid w.sessions = some session)
    (hv : assoc session.surveyId w.surveys = some survey)
    (hq : respondQT w survey.id session.state.currentOrder = some qt)
    (hx : ai.extractData
      (respondExtractArgs w sid qt survey.id (respondLang survey) text) = none) :
    respond ai w sid text =
      ({ status := 200,
         message := some (ai.combineFail (respondFailArgs w sid qt (respondLang survey))),
         error := none, completed := none, sessionId := some sid }, w) := by
  simp only [respond, hs, hv, hq, hx]

/-- Counterexample for C3: a failed-extraction turn leaves the report store
byte-for-byte unchanged, and the stored report contains no client entry at
all, so the raw client message is not recorded as a conversation entry. -/
theorem respond_fail_no_client_record_counterexample :
    (respond failingExtractionAi
      { sessions := [(1, ⟨1, ⟨1, false⟩⟩)],
        surveys := [(1, ⟨1, "ext", "en"⟩)],
        questionTemplates :=
          [⟨1, 1, 1, "yesterdayWork", "freeform", "What did you do yesterday?",
              "Thanks!", "Please describe.", false⟩,
            ⟨2, 1, 2, "todayPlan", "freeform", "Plan today?", "Great!",
              "Please say.", true⟩],
        reports := [(1, ⟨[⟨0, "agent", "What did you do yesterday?", some 1⟩], []⟩)],
        messages := [], counter := 5 } 1 "KCD-12").2
      = { sessions := [(1, ⟨1, ⟨1, false⟩⟩)],
          surveys := [(1, ⟨1, "ext", "en"⟩)],
          questionTemplates :=
            [⟨1, 1, 1, "yesterdayWork", "freeform", "What did you do yesterday?",
                "Thanks!", "Please describe.", false⟩,
              ⟨2, 1, 2, "todayPlan", "freeform", "Plan today?", "Great!",
                "Please say.", true⟩],
          reports := [(1, ⟨[⟨0, "agent", "What did you do yesterday?", some 1⟩], []⟩)],
          messages := [], counter := 5 }
    ∧ ((assoc 1 (respond failingExtractionAi
        { sessions := [(1, ⟨1, ⟨1, false⟩⟩)],
          surveys := [(1, ⟨1, "ext", "en"⟩)],
          questionTemplates :=
            [⟨1, 1, 1, "yesterdayWork", "freeform", "What did you do yesterday?",
                "Thanks!", "Please describe.", false⟩,
              ⟨2, 1, 2, "todayPlan", "freeform", "Plan today?", "Great!",
                "Please say.", true⟩],
          reports := [(1, ⟨[⟨0, "agent", "What did you do yesterday?", some 1⟩], []⟩)],
          messages := [], counter := 5 } 1 "KCD-12").2.reports).map
        (fun r => r.conversation.filter (fun m => m.author == "client"))) = some [] := by
  constructor
  · rfl
  · rfl

/-- Witness for C3 amended: on a concrete world a failed-extraction turn
returns the failTemplate combined with the question and the world is
unchanged. -/
theorem extraction_fail_branch_witness :
    failingExtractionAi.extractData
      (respondExtractArgs
        { sessions := [(2, ⟨1, ⟨1, false⟩⟩)],
          surveys := [(1, ⟨1, "ext", "en"⟩)],
          questionTemplates :=
            [⟨1, 1, 1, "yesterdayWork", "freeform", "What did you do yesterday?",
                "Thanks!", "Please describe.", false⟩],
          reports := [(2, ⟨[⟨0, "agent", "What did you do yesterday?", some 1⟩], []⟩)],
          messages := [], counter := 5 } 2
        ⟨1, 1, 1, "yesterdayWork", "freeform", "What did you do yesterday?",
          "Thanks!", "Please describe.", false⟩ 1 "en" "KCD-12") = none
    ∧ respond failingExtractionAi
        { sessions := [(2, ⟨1, ⟨1, false⟩⟩)],
          surveys := [(1, ⟨1, "ext", "en"⟩)],
          questionTemplates :=
            [⟨1, 1, 1, "yesterdayWork", "freeform", "What did you do yesterday?",
                "Thanks!", "Please describe.", false⟩],
          reports := [(2, ⟨[⟨0, "agent", "What did you do yesterday?", some 1⟩], []⟩)],
          messages := [], counter := 5 } 2 "KCD-12"
      = ({ status := 200,
           message := some "Please describe.\n\nWhat did you do yesterday?",
           error := none, completed := none, sessionId := some 2 },
          { sessions := [(2, ⟨1, ⟨1, false⟩⟩)],
            surveys := [(1, ⟨1, "ext", "en"⟩)],
            questionTemplates :=
              [⟨1, 1, 1, "yesterdayWork", "freeform", "What did you do yesterday?",
                  "Thanks!", "Please describe.", false⟩],
            reports := [(2, ⟨[⟨0, "agent", "What did you do yesterday?", some 1⟩], []⟩)],
            messages := [], counter := 5 }) := by
  refine ⟨rfl, ?_⟩
  have h := extraction_fail_branch failingExtractionAi
    { sessions := [(2, ⟨1, ⟨1, false⟩⟩)],
      surveys := [(1, ⟨1, "ext", "en"⟩)],
      questionTemplates :=
        [⟨1, 1, 1, "yesterdayWork", "freeform", "What did you do yesterday?",
            "Thanks!", "Please describe.", false⟩],
      reports := [(2, ⟨[⟨0, "agent", "What did you do yesterday?", some 1⟩], []⟩)],
      messages := [], counter := 5 } 2 "KCD-12"
    ⟨1, ⟨1, false⟩⟩ ⟨1, "ext", "en"⟩
    ⟨1, 1, 1, "yesterdayWork", "freeform", "What did you do yesterday?",
      "Thanks!", "Please describe.", false⟩ rfl rfl rfl rfl
  exact h
